import Mathlib

/-!
Shallow embedding of the Skia GPU path tessellator
(src/src/gpu/SkGr.cpp, appended GrTessellator implementation, lines 720-2524).

Scalars (C++ `SkScalar` float and `double`) are embedded as exact rationals:
the claims under study are about the algorithmic structure, and the source
itself evaluates the sign-critical predicates in double precision.
Pointer identity of `Vertex` objects is embedded as a numeric id.
-/

namespace SkiaTess

/-- `SkPoint`: a 2-d position. -/
structure Pt where
  x : ℚ
  y : ℚ
deriving DecidableEq, Repr

/-- `sweep_lt_horiz` (SkGr.cpp:896): `a.fX < b.fX || (a.fX == b.fX && a.fY > b.fY)`. -/
def sweep_lt_horiz (a b : Pt) : Prop :=
  a.x < b.x ∨ (a.x = b.x ∧ b.y < a.y)

/-- `sweep_lt_vert` (SkGr.cpp:900): `a.fY < b.fY || (a.fY == b.fY && a.fX < b.fX)`. -/
def sweep_lt_vert (a b : Pt) : Prop :=
  a.y < b.y ∨ (a.y = b.y ∧ a.x < b.x)

instance (a b : Pt) : Decidable (sweep_lt_horiz a b) := by
  unfold sweep_lt_horiz; infer_instance

instance (a b : Pt) : Decidable (sweep_lt_vert a b) := by
  unfold sweep_lt_vert; infer_instance

/-- `Comparator::Direction` (SkGr.cpp:905). -/
inductive Direction where
  | kVertical
  | kHorizontal
deriving DecidableEq, Repr

/-- `Comparator::sweep_lt` (SkGr.cpp:907): dispatch on the direction. -/
def sweep_lt (d : Direction) (a b : Pt) : Prop :=
  match d with
  | .kHorizontal => sweep_lt_horiz a b
  | .kVertical => sweep_lt_vert a b

instance (d : Direction) (a b : Pt) : Decidable (sweep_lt d a b) := by
  cases d <;> simp only [sweep_lt] <;> infer_instance

/-- The comparator is irreflexive. -/
theorem sweep_lt_irrefl (d : Direction) (a : Pt) : ¬ sweep_lt d a a := by
  cases d <;> simp [sweep_lt, sweep_lt_horiz, sweep_lt_vert]

/-- The comparator is asymmetric. -/
theorem sweep_lt_asymm (d : Direction) (a b : Pt) :
    sweep_lt d a b → ¬ sweep_lt d b a := by
  cases d <;>
    (simp only [sweep_lt, sweep_lt_horiz, sweep_lt_vert];
     rintro (h | ⟨h1, h2⟩) (h' | ⟨h'1, h'2⟩) <;> [linarith; linarith; linarith; linarith])

/-- The comparator is total on distinct points. -/
theorem sweep_lt_total (d : Direction) (a b : Pt) (hne : a ≠ b) :
    sweep_lt d a b ∨ sweep_lt d b a := by
  have hx : a.x < b.x ∨ a.x = b.x ∨ b.x < a.x := lt_trichotomy a.x b.x
  have hy : a.y < b.y ∨ a.y = b.y ∨ b.y < a.y := lt_trichotomy a.y b.y
  have hne' : a.x ≠ b.x ∨ a.y ≠ b.y := by
    by_contra h
    push_neg at h
    exact hne (by cases a; cases b; simp_all)
  cases d <;> simp only [sweep_lt, sweep_lt_horiz, sweep_lt_vert] <;> rcases hx with hx | hx | hx <;>
    rcases hy with hy | hy | hy <;> first
      | (left; left; assumption)
      | (right; left; assumption)
      | (left; right; exact ⟨by linarith, by linarith⟩)
      | (right; right; exact ⟨by linarith, by linarith⟩)
      | (exfalso; rcases hne' with h | h <;> exact h (by linarith))

theorem not_sweep_lt_horiz_iff (a b : Pt) :
    ¬ sweep_lt_horiz a b ↔ b.x ≤ a.x ∧ (a.x = b.x → a.y ≤ b.y) := by
  unfold sweep_lt_horiz
  constructor
  · intro h
    push_neg at h
    exact ⟨h.1, fun he => h.2 he⟩
  · rintro ⟨h1, h2⟩ (h | ⟨he, hy⟩)
    · linarith
    · linarith [h2 he]

theorem not_sweep_lt_vert_iff (a b : Pt) :
    ¬ sweep_lt_vert a b ↔ b.y ≤ a.y ∧ (a.y = b.y → b.x ≤ a.x) := by
  unfold sweep_lt_vert
  constructor
  · intro h
    push_neg at h
    exact ⟨h.1, fun he => h.2 he⟩
  · rintro ⟨h1, h2⟩ (h | ⟨he, hy⟩)
    · linarith
    · linarith [h2 he]

/-- Negative transitivity: `¬lt b a` and `¬lt c b` imply `¬lt c a`
(so the reflexive companion order is transitive). -/
theorem sweep_lt_neg_trans (d : Direction) (a b c : Pt)
    (hab : ¬ sweep_lt d b a) (hbc : ¬ sweep_lt d c b) : ¬ sweep_lt d c a := by
  cases d
  · simp only [sweep_lt] at *
    rw [not_sweep_lt_vert_iff] at hab hbc ⊢
    refine ⟨le_trans hab.1 hbc.1, fun he => ?_⟩
    have h1 : b.y = a.y := le_antisymm (by linarith [hbc.1]) hab.1
    have h2 : c.y = b.y := by linarith
    linarith [hab.2 h1, hbc.2 h2]
  · simp only [sweep_lt] at *
    rw [not_sweep_lt_horiz_iff] at hab hbc ⊢
    refine ⟨le_trans hab.1 hbc.1, fun he => ?_⟩
    have h1 : b.x = a.x := le_antisymm (by linarith [hbc.1]) hab.1
    have h2 : c.x = b.x := by linarith
    linarith [hab.2 h1, hbc.2 h2]

/-! ### Quarter-pixel rounding and lines -/

/-- `SkScalarRoundToScalar`: round to nearest, halves toward positive infinity. -/
def skScalarRound (x : ℚ) : ℚ := ((⌊x + 1/2⌋ : ℤ) : ℚ)

/-- `round` (SkGr.cpp:980): snap a point to the nearest quarter-pixel. -/
def roundPt (p : Pt) : Pt :=
  ⟨skScalarRound (p.x * 4) * (1/4), skScalarRound (p.y * 4) * (1/4)⟩

/-- A coordinate pair lies on the quarter-pixel grid. -/
def onQuarterGrid (p : Pt) : Prop := (p.x * 4).den = 1 ∧ (p.y * 4).den = 1

instance (p : Pt) : Decidable (onQuarterGrid p) := by
  unfold onQuarterGrid; infer_instance

/-- `Line` (SkGr.cpp:986): implicit line equation `a*x + b*y + c = 0`,
coefficients kept in double precision. -/
structure Line where
  a : ℚ
  b : ℚ
  c : ℚ
deriving DecidableEq, Repr

/-- The `Line(p, q)` constructor (SkGr.cpp:988). -/
def lineOf (p q : Pt) : Line :=
  ⟨q.y - p.y, p.x - q.x, p.y * q.x - p.x * q.y⟩

/-- `Line::dist` (SkGr.cpp:993). -/
def Line.dist (l : Line) (p : Pt) : ℚ := l.a * p.x + l.b * p.y + l.c

/-- `Line::magSq` (SkGr.cpp:996). -/
def Line.magSq (l : Line) : ℚ := l.a * l.a + l.b * l.b

/-- `Line::intersect` (SkGr.cpp:1001): intersection of two infinite lines.
The result is unconditionally passed through `round` (quarter-pixel snap). -/
def Line.intersect (l other : Line) : Option Pt :=
  let denom := l.a * other.b - l.b * other.a
  if denom = 0 then none
  else
    let scale := 1 / denom
    some (roundPt ⟨(l.b * other.c - other.b * l.c) * scale,
                   (other.a * l.c - l.a * other.c) * scale⟩)

/-! ### Edges

`Edge` objects hold pointers to their top/bottom `Vertex`; for the methods
that only read the endpoints we embed the dereferenced view: the vertex ids
(pointer identity), positions and alphas, plus the edge's own fields.
-/

/-- `Edge::Type` (SkGr.cpp:1034). -/
inductive EdgeType where
  | kInner
  | kOuter
  | kConnector
deriving DecidableEq, Repr

/-- The fields of an `Edge` read by `intersect`/`isLeftOf`/`isRightOf`,
with vertex pointers dereferenced (id = pointer identity). -/
structure EdgeView where
  topId : ℕ
  topPt : Pt
  topAlpha : ℚ
  botId : ℕ
  botPt : Pt
  botAlpha : ℚ
  winding : ℤ
  etype : EdgeType
  line : Line
deriving DecidableEq, Repr

/-- `Edge::isRightOf` (SkGr.cpp:1078). -/
def EdgeView.isRightOf (e : EdgeView) (p : Pt) : Prop := e.line.dist p < 0

/-- `Edge::isLeftOf` (SkGr.cpp:1081). -/
def EdgeView.isLeftOf (e : EdgeView) (p : Pt) : Prop := 0 < e.line.dist p

/-- `Edge::intersect` (SkGr.cpp:1087), with the `alpha` out-parameter supplied
(as in `check_for_intersection`). Returns `none` where the C++ returns false
without writing `*p`. No rounding is applied to the computed point. -/
def EdgeView.intersect (e other : EdgeView) : Option (Pt × ℚ) :=
  if e.topId = other.topId ∨ e.botId = other.botId then none
  else
    let denom := e.line.a * other.line.b - e.line.b * other.line.a
    if denom = 0 then none
    else
      let dx := other.topPt.x - e.topPt.x
      let dy := other.topPt.y - e.topPt.y
      let sNumer := dy * other.line.b + dx * other.line.a
      let tNumer := dy * e.line.b + dx * e.line.a
      if (if 0 < denom then sNumer < 0 ∨ denom < sNumer ∨ tNumer < 0 ∨ denom < tNumer
          else 0 < sNumer ∨ sNumer < denom ∨ 0 < tNumer ∨ tNumer < denom) then none
      else
        let s := sNumer / denom
        let p : Pt := ⟨e.topPt.x - s * e.line.b, e.topPt.y + s * e.line.a⟩
        let alpha : ℚ :=
          if e.etype = .kConnector then (1 - s) * e.topAlpha + s * e.botAlpha
          else if other.etype = .kConnector then
            let t := tNumer / denom
            (1 - t) * other.topAlpha + t * other.botAlpha
          else if e.etype = .kOuter ∧ other.etype = .kOuter then 0
          else 255
        some (p, alpha)

/-! ### Stage 3: merge sort (`merge_sort`, SkGr.cpp:1919)

The source sorts the linked vertex list in place: it splits the list with a
slow/fast pointer walk (the front half receives `ceil(n/2)` nodes), recurses,
and merges by taking the front element when `sweep_lt(a, b)` holds and the
back element otherwise. The embedding performs the same algorithm on `List`;
`mergeF`/`mergeSortF` take explicit fuel so that they are structurally
recursive (the fuel is always sufficient at the stated call sites).
-/

section MergeSort

variable {α : Type} (ltB : α → α → Bool)

/-- The merge loop of `merge_sort` (SkGr.cpp:1946-1962): take from the front
list iff `sweep_lt(a, b)`; on ties the back-list element is taken first. -/
def mergeF : ℕ → List α → List α → List α
  | 0, a, b => a ++ b
  | _ + 1, [], b => b
  | _ + 1, x :: xs, [] => x :: xs
  | n + 1, x :: xs, y :: ys =>
    if ltB x y then x :: mergeF n xs (y :: ys) else y :: mergeF n (x :: xs) ys

/-- `merge_sort` (SkGr.cpp:1919): split at `ceil(n/2)` (slow/fast pointers),
recurse, merge. -/
def mergeSortF : ℕ → List α → List α
  | 0, l => l
  | n + 1, l =>
    if l.length ≤ 1 then l
    else
      let front := l.take ((l.length + 1) / 2)
      let back := l.drop ((l.length + 1) / 2)
      mergeF ltB l.length (mergeSortF n front) (mergeSortF n back)

/-- Entry point of the embedded `merge_sort`. -/
def mergeSortL (l : List α) : List α := mergeSortF ltB l.length l

theorem mergeF_perm : ∀ (n : ℕ) (a b : List α), a.length + b.length ≤ n →
    List.Perm (mergeF ltB n a b) (a ++ b) := by
  intro n
  induction n with
  | zero => intro a b _; exact List.Perm.refl _
  | succ n ih =>
    intro a b hlen
    match a, b with
    | [], b => simp [mergeF]
    | x :: xs, [] => simp [mergeF]
    | x :: xs, y :: ys =>
      simp only [mergeF]
      cases hxy : ltB x y
      · rw [if_neg (by simp)]
        have hp := ih (x :: xs) ys (by simp at hlen ⊢; omega)
        exact (hp.cons y).trans
          ((@List.perm_middle _ y (x :: xs) ys).symm)
      · rw [if_pos rfl]
        exact ((ih xs (y :: ys) (by simp at hlen ⊢; omega)).cons x)

theorem mergeSortF_perm : ∀ (n : ℕ) (l : List α), l.length ≤ n →
    List.Perm (mergeSortF ltB n l) l := by
  intro n
  induction n with
  | zero =>
    intro l hl
    have : l = [] := List.length_eq_zero.mp (by omega)
    simp [this, mergeSortF]
  | succ n ih =>
    intro l hl
    simp only [mergeSortF]
    by_cases h : l.length ≤ 1
    · rw [if_pos h]
    · rw [if_neg h]
      push_neg at h
      have hfront : (l.take ((l.length + 1) / 2)).length ≤ n := by
        simp [List.length_take]; omega
      have hback : (l.drop ((l.length + 1) / 2)).length ≤ n := by
        simp [List.length_drop]; omega
      have pf := ih _ hfront
      have pb := ih _ hback
      have hm := mergeF_perm ltB l.length (mergeSortF ltB n (l.take ((l.length + 1) / 2)))
        (mergeSortF ltB n (l.drop ((l.length + 1) / 2)))
        (by rw [pf.length_eq, pb.length_eq, ← List.length_append,
                List.take_append_drop])
      exact hm.trans ((pf.append pb).trans
        (by rw [List.take_append_drop]))

/-- Companion non-strict order of the comparator. -/
def RleB (u v : α) : Prop := ltB v u = false

theorem mergeF_sorted
    (asym : ∀ u v, ltB u v = true → ltB v u = false)
    (negtrans : ∀ u v w, ltB v u = false → ltB w v = false → ltB w u = false) :
    ∀ (n : ℕ) (a b : List α), a.length + b.length ≤ n →
    a.Pairwise (RleB ltB) → b.Pairwise (RleB ltB) →
    (mergeF ltB n a b).Pairwise (RleB ltB) := by
  intro n
  induction n with
  | zero =>
    intro a b hlen _ _
    have ha0 : a = [] := List.length_eq_zero.mp (by omega)
    have hb0 : b = [] := List.length_eq_zero.mp (by omega)
    simp [ha0, hb0, mergeF]
  | succ n ih =>
    intro a b hlen ha hb
    match a, b with
    | [], b => simpa [mergeF] using hb
    | x :: xs, [] => simpa [mergeF] using ha
    | x :: xs, y :: ys =>
      simp only [mergeF]
      rw [List.pairwise_cons] at ha hb
      cases hxy : ltB x y
      · rw [if_neg (by simp)]
        rw [List.pairwise_cons]
        have hyx : RleB ltB y x := hxy
        refine ⟨?_, ih (x :: xs) ys (by simp at hlen ⊢; omega)
          (List.pairwise_cons.mpr ha) hb.2⟩
        intro z hz
        have hz' : z ∈ (x :: xs) ++ ys :=
          (mergeF_perm ltB n (x :: xs) ys (by simp at hlen ⊢; omega)).mem_iff.mp hz
        rcases List.mem_append.mp hz' with hz' | hz'
        · rcases List.mem_cons.mp hz' with rfl | hz'
          · exact hyx
          · exact negtrans y x z hyx (ha.1 z hz')
        · exact hb.1 z hz'
      · rw [if_pos rfl]
        rw [List.pairwise_cons]
        refine ⟨?_, ih xs (y :: ys) (by simp at hlen ⊢; omega) ha.2
          (List.pairwise_cons.mpr hb)⟩
        intro z hz
        have hz' : z ∈ xs ++ (y :: ys) :=
          (mergeF_perm ltB n xs (y :: ys) (by simp at hlen ⊢; omega)).mem_iff.mp hz
        rcases List.mem_append.mp hz' with hz' | hz'
        · exact ha.1 z hz'
        · rcases List.mem_cons.mp hz' with rfl | hz'
          · exact asym x z hxy
          · exact negtrans x y z (asym x y hxy) (hb.1 z hz')

theorem mergeSortF_sorted
    (asym : ∀ u v, ltB u v = true → ltB v u = false)
    (negtrans : ∀ u v w, ltB v u = false → ltB w v = false → ltB w u = false) :
    ∀ (n : ℕ) (l : List α), l.length ≤ n →
    (mergeSortF ltB n l).Pairwise (RleB ltB) := by
  intro n
  induction n with
  | zero =>
    intro l hl
    have : l = [] := List.length_eq_zero.mp (by omega)
    simp [this, mergeSortF]
  | succ n ih =>
    intro l hl
    simp only [mergeSortF]
    by_cases h : l.length ≤ 1
    · rw [if_pos h]
      match l, h with
      | [], _ => simp
      | [x], _ => simp
    · rw [if_neg h]
      push_neg at h
      have hfront : (l.take ((l.length + 1) / 2)).length ≤ n := by
        simp [List.length_take]; omega
      have hback : (l.drop ((l.length + 1) / 2)).length ≤ n := by
        simp [List.length_drop]; omega
      exact mergeF_sorted ltB asym negtrans l.length _ _
        (by rw [(mergeSortF_perm ltB n _ hfront).length_eq,
                (mergeSortF_perm ltB n _ hback).length_eq, ← List.length_append,
                List.take_append_drop])
        (ih _ hfront) (ih _ hback)

theorem mergeSortL_perm (l : List α) : List.Perm (mergeSortL ltB l) l :=
  mergeSortF_perm ltB l.length l le_rfl

theorem mergeSortL_sorted
    (asym : ∀ u v, ltB u v = true → ltB v u = false)
    (negtrans : ∀ u v w, ltB v u = false → ltB w v = false → ltB w u = false)
    (l : List α) : (mergeSortL ltB l).Pairwise (RleB ltB) :=
  mergeSortF_sorted ltB asym negtrans l.length l le_rfl

end MergeSort

/-! ### Fill rules and polygon emission (stages 5 output and stage 6) -/

/-- `SkPath::FillType`. -/
inductive FillType where
  | kWinding
  | kEvenOdd
  | kInverseWinding
  | kInverseEvenOdd
deriving DecidableEq, Repr

/-- `apply_fill_type` (SkGr.cpp:1474). `winding & 1` on two's-complement ints
is `winding.emod 2` for the values involved. -/
def apply_fill_type (ft : FillType) (winding : ℤ) : Prop :=
  match ft with
  | .kWinding => winding ≠ 0
  | .kEvenOdd => winding % 2 ≠ 0
  | .kInverseWinding => winding = 1
  | .kInverseEvenOdd => winding % 2 = 1

instance (ft : FillType) (w : ℤ) : Decidable (apply_fill_type ft w) := by
  cases ft <;> simp only [apply_fill_type] <;> infer_instance

/-- `Poly::Side` (SkGr.cpp:1170). -/
inductive Side where
  | kLeft
  | kRight
deriving DecidableEq, Repr

/-- The `Edge` fields used by the `MonotonePoly`/`Poly` bookkeeping and by
stage-6 emission: endpoint ids/positions and the two used-in-poly flags.
(The flags live on the shared edge object in the C++; here each chain holds
its own copy, which is faithful for the early-return tests performed.) -/
structure PolyEdge where
  topId : ℕ
  topPt : Pt
  botId : ℕ
  botPt : Pt
  usedInLeft : Bool
  usedInRight : Bool
deriving DecidableEq, Repr

/-- `edge->fUsedInRightPoly` / `edge->fUsedInLeftPoly` selected by side. -/
def edgeUsed (e : PolyEdge) (s : Side) : Bool :=
  match s with
  | .kRight => e.usedInRight
  | .kLeft => e.usedInLeft

/-- `Poly::MonotonePoly` (SkGr.cpp:1171): a side and the edge chain
`fFirstEdge .. fLastEdge`. -/
structure MonoPoly where
  side : Side
  edges : List PolyEdge
deriving DecidableEq, Repr

/-- `MonotonePoly::addEdge` (SkGr.cpp:1185): append at `fLastEdge`, marking
the edge used on this side. -/
def MonoPoly.addEdge (m : MonoPoly) (e : PolyEdge) : MonoPoly :=
  match m.side with
  | .kRight => { m with edges := m.edges ++ [{ e with usedInRight := true }] }
  | .kLeft => { m with edges := m.edges ++ [{ e with usedInLeft := true }] }

/-- The `MonotonePoly(edge, side)` constructor (SkGr.cpp:1172). -/
def monoSingleton (e : PolyEdge) (s : Side) : MonoPoly :=
  MonoPoly.addEdge ⟨s, []⟩ e

/-- The vertex ring built at the start of `MonotonePoly::emit`
(SkGr.cpp:1200-1211): append the first edge's top, then for each chain edge
append (right side) or prepend (left side) its bottom. -/
def MonoPoly.ring (m : MonoPoly) : List Pt :=
  match m.edges with
  | [] => []
  | e :: _ =>
    match m.side with
    | .kRight => e.topPt :: m.edges.map (fun e2 => e2.botPt)
    | .kLeft => (m.edges.map (fun e2 => e2.botPt)).reverse ++ [e.topPt]

/-- The convexity test of the ear-clip loop (SkGr.cpp:1219-1223):
`ax*by - ay*bx >= 0`. -/
def convexAt (prev curr next : Pt) : Prop :=
  0 ≤ (curr.x - prev.x) * (next.y - curr.y) - (curr.y - prev.y) * (next.x - curr.x)

instance (p c n : Pt) : Decidable (convexAt p c n) := by
  unfold convexAt; infer_instance

/-- The ear-clip loop of `MonotonePoly::emit` (SkGr.cpp:1213-1235).
State: the ring is `revBefore.reverse ++ v :: after` with the cursor at `v`
(`revBefore` nonempty, head = `v`'s predecessor); the loop runs while the
cursor is not the ring's tail, i.e. while `after` is nonempty. On a convex
corner the triangle is emitted, the cursor vertex is removed, and the cursor
moves back to its predecessor (or forward when the predecessor is the ring
head); otherwise the cursor advances. Fuel makes the recursion structural. -/
def earClipF : ℕ → List Pt → Pt → List Pt → List (Pt × Pt × Pt)
  | 0, _, _, _ => []
  | _ + 1, _, _, [] => []
  | n + 1, revBefore, v, next :: after =>
    match revBefore with
    | [] => []
    | prev :: revRest =>
      if convexAt prev v next then
        (prev, v, next) ::
          (match revRest with
           | [] => earClipF n revBefore next after
           | _ :: _ => earClipF n revRest prev (next :: after))
      else
        earClipF n (v :: revBefore) next after

/-- `MonotonePoly::emit` (SkGr.cpp:1199): build the ring, then ear-clip.
The fuel bounds the loop's step count (each emission removes a vertex, and
between emissions the cursor only advances). -/
def MonoPoly.emitTris (m : MonoPoly) : List (Pt × Pt × Pt) :=
  match m.ring with
  | [] => []
  | [_] => []
  | a :: b :: rest =>
    earClipF ((rest.length + 2) * (rest.length + 2) + 1) [a] b rest

/-- `Poly` (SkGr.cpp:1154): winding, the `MonotonePoly` chain
`fHead .. fTail`, the edge count and the partner link (kept as a flag;
only its nullness is read by `addEdge`). -/
structure PolyRec where
  firstVertexId : ℕ
  winding : ℤ
  monos : List MonoPoly
  count : ℤ
  hasPartner : Bool
deriving DecidableEq, Repr

/-- The `Poly(v, winding)` constructor as used by `new_poly` (SkGr.cpp:1309). -/
def newPoly (vId : ℕ) (w : ℤ) : PolyRec :=
  ⟨vId, w, [], 0, false⟩

/-- `Poly::addEdge` (SkGr.cpp:1239), as a transition on the poly itself.
When the poly has a partner, the source also forwards the join edge to the
partner with a recursive `addEdge` call (a normal step on that other poly)
and makes the partner current; only this poly's new state is returned here. -/
def PolyRec.addEdge (p : PolyRec) (e : PolyEdge) (s : Side) : PolyRec :=
  if edgeUsed e s then p
  else
    let partner := p.hasPartner
    let q : PolyRec := { p with hasPartner := false }
    match q.monos.getLast? with
    | none => { q with monos := [monoSingleton e s], count := q.count + 2 }
    | some tail =>
      match tail.edges.getLast? with
      | none => q
      | some te =>
        if te.botId = e.botId then q
        else if s = tail.side then
          { q with monos := q.monos.dropLast ++ [tail.addEdge e], count := q.count + 1 }
        else
          let j : PolyEdge := ⟨te.botId, te.botPt, e.botId, e.botPt, false, false⟩
          let q2 : PolyRec :=
            { q with monos := q.monos.dropLast ++ [tail.addEdge j], count := q.count + 1 }
          if partner then q2
          else { q2 with monos := q2.monos ++ [monoSingleton j s] }

/-- `Poly::emit` (SkGr.cpp:1280): nothing for `fCount < 3`, else each
`MonotonePoly` in chain order. -/
def PolyRec.emitTris (p : PolyRec) : List (Pt × Pt × Pt) :=
  if p.count < 3 then [] else (p.monos.map MonoPoly.emitTris).flatten

/-- `emit_triangle` (SkGr.cpp:934) with `TESSELLATOR_WIREFRAME` unset (0):
three vertices per triangle, in order. -/
def trisToVerts (ts : List (Pt × Pt × Pt)) : List Pt :=
  ts.foldr (fun t acc => t.1 :: t.2.1 :: t.2.2 :: acc) []

/-- `count_points` (SkGr.cpp:2433), with `TESSELLATOR_WIREFRAME` unset:
`(fCount - 2) * 3` for each poly passing the fill rule with `fCount >= 3`. -/
def count_points (polys : List PolyRec) (ft : FillType) : ℤ :=
  polys.foldr
    (fun p acc =>
      if apply_fill_type ft p.winding ∧ 3 ≤ p.count then (p.count - 2) * 3 + acc else acc)
    0

/-- `polys_to_triangles` (SkGr.cpp:2397): emit each poly passing the fill
rule, concatenating the vertex streams. -/
def polys_to_triangles (polys : List PolyRec) (ft : FillType) : List Pt :=
  polys.foldr
    (fun p acc =>
      (if apply_fill_type ft p.winding then trisToVerts p.emitTris else []) ++ acc)
    []

/-! ### Entry points (SkGr.cpp:2420, 2449, 2485)

`get_contour_count` calls `GrPathUtils::worstCasePointCount`, which is
declared in `GrPathUtils.h` and not part of this repository's sources; its
two outputs (`maxPts` and the contour count) are therefore taken as inputs
here. Likewise the `Poly` list produced by `path_to_polys` is passed in. -/

/-- `get_contour_count` (SkGr.cpp:2420): reject `maxPts <= 0` and
`maxPts > SK_MaxU16 + 1` (i.e. `maxPts > 65536`). -/
def get_contour_count (maxPts contourCnt : ℤ) : ℤ :=
  if maxPts ≤ 0 then 0
  else if 65536 < maxPts then 0
  else contourCnt

/-- `GrTessellator::WindingVertex`. -/
structure WindingVertex where
  pos : Pt
  winding : ℤ
deriving DecidableEq, Repr

/-- The observable effect of `PathToVertices` on its `*verts` out-parameter. -/
inductive VertsOut where
  | untouched
  | nullArr
  | arr (records : List WindingVertex)
deriving DecidableEq, Repr

/-- The emission loop of `PathToVertices` (SkGr.cpp:2505-2516): for each poly
passing the fill rule, emit its triangle vertices and copy each into a
`WindingVertex` with the poly's winding. -/
def windingVertexRecords (polys : List PolyRec) (ft : FillType) : List WindingVertex :=
  polys.foldr
    (fun p acc =>
      (if apply_fill_type ft p.winding then
        (trisToVerts p.emitTris).map (fun pt => ⟨pt, p.winding⟩)
       else []) ++ acc)
    []

/-- `GrTessellator::PathToVertices` (SkGr.cpp:2485): returns the record count
and the effect on `*verts`. -/
def PathToVertices (maxPts contourCnt : ℤ) (ft : FillType) (polys : List PolyRec) :
    ℤ × VertsOut :=
  let contourCntChecked := get_contour_count maxPts contourCnt
  if contourCntChecked ≤ 0 then (0, .untouched)
  else
    let count := count_points polys ft
    if count = 0 then (0, .nullArr)
    else
      let records := windingVertexRecords polys ft
      ((records.length : ℤ), .arr records)

/-- `GrTessellator::PathToTriangles` (SkGr.cpp:2449): returns the number of
vertices written (`actualCount`). `allocOk` models whether
`vertexAllocator->lock(count)` succeeds. -/
def PathToTriangles (maxPts contourCnt : ℤ) (pathFill : FillType) (antialias : Bool)
    (allocOk : Bool) (polys : List PolyRec) : ℤ :=
  let contourCntChecked := get_contour_count maxPts contourCnt
  if contourCntChecked ≤ 0 then 0
  else
    let ft := if antialias then FillType.kWinding else pathFill
    let count := count_points polys ft
    if count = 0 then 0
    else if !allocOk then 0
    else ((polys_to_triangles polys ft).length : ℤ)

/-! ### Comparator choice (SkGr.cpp:2378-2382) -/

/-- The two fields of the path's bounding box read by `contours_to_polys`. -/
structure RectWH where
  width : ℚ
  height : ℚ
deriving DecidableEq, Repr

/-- The comparator direction chosen once per tessellation call in
`contours_to_polys` (SkGr.cpp:2381):
`pathBounds.width() > pathBounds.height() ? kHorizontal : kVertical`. -/
def chooseDirection (pathBounds : RectWH) : Direction :=
  if pathBounds.height < pathBounds.width then .kHorizontal else .kVertical

/-! ### Edge construction and endpoint updates (SkGr.cpp:1494, 1632, 1641) -/

/-- The vertex fields read by edge construction: pointer identity and
position. -/
structure VtxView where
  vid : ℕ
  pt : Pt
deriving DecidableEq, Repr

/-- An `Edge` as built by `new_edge`: winding, endpoints, line equation. -/
structure EdgeRec where
  winding : ℤ
  top : VtxView
  bot : VtxView
  line : Line
deriving DecidableEq, Repr

/-- `new_edge` (SkGr.cpp:1494): winding from the comparator, top/bottom from
the winding, and the `Edge` constructor computes `fLine` from top/bottom. -/
def new_edge (d : Direction) (prevV nextV : VtxView) : EdgeRec :=
  let w : ℤ := if sweep_lt d prevV.pt nextV.pt then 1 else -1
  let top := if w < 0 then nextV else prevV
  let bot := if w < 0 then prevV else nextV
  ⟨w, top, bot, lineOf top.pt bot.pt⟩

/-- `set_top` (SkGr.cpp:1632) restricted to the edge object: the assignment
`edge->fTop = v` immediately followed by `edge->recompute()`. -/
def EdgeRec.setTop (e : EdgeRec) (v : VtxView) : EdgeRec :=
  { e with top := v, line := lineOf v.pt e.bot.pt }

/-- `set_bottom` (SkGr.cpp:1641) restricted to the edge object. -/
def EdgeRec.setBottom (e : EdgeRec) (v : VtxView) : EdgeRec :=
  { e with bot := v, line := lineOf e.top.pt v.pt }

/-- The guard of `insert_edge_above`/`insert_edge_below` (SkGr.cpp:1567,
1585): an edge is linked into a vertex's edge lists only if it is neither
degenerate nor inverted under the sweep comparator. -/
def insertableEdge (d : Direction) (e : EdgeRec) : Prop :=
  ¬ (e.top.pt = e.bot.pt ∨ sweep_lt d e.bot.pt e.top.pt)

/-! ### Claim-side emission readings and the poly bookkeeping invariant -/

/-- Claim-side reading of the `PathToVertices` emission (spec section 6):
one `{position, winding}` record per triangle vertex for every `Poly`,
regardless of the fill rule. -/
def windingVertexRecordsAllPolys (polys : List PolyRec) : List WindingVertex :=
  polys.foldr
    (fun p acc => (trisToVerts p.emitTris).map (fun pt => ⟨pt, p.winding⟩) ++ acc)
    []

/-- Spec-side reading of the amended C1 claim: records for exactly the polys
accepted by the fill rule, in order, tagged with the source poly's winding. -/
def windingVertexRecordsFiltered (polys : List PolyRec) (ft : FillType) :
    List WindingVertex :=
  (polys.filter (fun p => decide (apply_fill_type ft p.winding))).flatMap
    (fun p => (trisToVerts p.emitTris).map (fun pt => ⟨pt, p.winding⟩))

/-- Total number of edges threaded into a poly's monotone chains. -/
def sumEdges (ms : List MonoPoly) : ℤ :=
  ms.foldr (fun m acc => (m.edges.length : ℤ) + acc) 0

/-- The bookkeeping invariant relating `fCount` to the monotone chains:
either the poly is still empty, or every chain is nonempty and
`fCount = (total chain edges) - (number of chains) + 2`. -/
def PolyWF (p : PolyRec) : Prop :=
  (p.monos = [] ∧ p.count = 0) ∨
  (p.monos ≠ [] ∧ (∀ m ∈ p.monos, m.edges ≠ []) ∧
    p.count = sumEdges p.monos - (p.monos.length : ℤ) + 2)

/-- The polys reachable through the tessellation-stage interface:
`new_poly` followed by any sequence of `addEdge` calls. -/
inductive PolyBuilt : PolyRec → Prop where
  | base (vId : ℕ) (w : ℤ) : PolyBuilt (newPoly vId w)
  | step (p : PolyRec) (e : PolyEdge) (s : Side) :
      PolyBuilt p → PolyBuilt (p.addEdge e s)

/-- The comparator as a boolean on (position, identity) pairs, as
instantiated by `merge_sort<sweep_lt_horiz>` / `merge_sort<sweep_lt_vert>`
(SkGr.cpp:2363-2367): vertices are compared by `fPoint` only. -/
def sweepLtB (d : Direction) (u v : Pt × ℕ) : Bool := decide (sweep_lt d u.1 v.1)

/-- Stage 3 as dispatched by `sort_and_simplify` (SkGr.cpp:2362). -/
def merge_sort (d : Direction) (l : List (Pt × ℕ)) : List (Pt × ℕ) :=
  mergeSortL (sweepLtB d) l

/-- Concrete edge pair whose crossing lies off the quarter-pixel grid. -/
def c4edge1 : EdgeView :=
  ⟨0, ⟨0, 0⟩, 255, 1, ⟨1, 1⟩, 255, 1, .kInner, lineOf ⟨0, 0⟩ ⟨1, 1⟩⟩

def c4edge2 : EdgeView :=
  ⟨2, ⟨0, 1⟩, 255, 3, ⟨2, 0⟩, 255, -1, .kInner, lineOf ⟨0, 1⟩ ⟨2, 0⟩⟩

/-- A triangle poly, in the exact form
`((newPoly 0 1).addEdge (edge 0->1) kRight).addEdge (edge 1->2) kRight`
evaluates to. -/
def c2poly : PolyRec :=
  { firstVertexId := 0, winding := 1,
    monos := [⟨.kRight, [⟨0, ⟨0, 0⟩, 1, ⟨10, 0⟩, false, true⟩,
                         ⟨1, ⟨10, 0⟩, 2, ⟨5, 10⟩, false, true⟩]⟩],
    count := 3, hasPartner := false }

/-- A triangle poly with winding 2 (as tessellation produces for the overlap
of two contours wound the same way); even-odd rejects winding 2. -/
def c1poly : PolyRec :=
  { firstVertexId := 0, winding := 2,
    monos := [⟨.kRight, [⟨0, ⟨0, 0⟩, 1, ⟨10, 0⟩, false, true⟩,
                         ⟨1, ⟨10, 0⟩, 2, ⟨5, 10⟩, false, true⟩]⟩],
    count := 3, hasPartner := false }

/-- A triangle poly used by the C8 witness. -/
def c8poly : PolyRec :=
  ((newPoly 0 1).addEdge ⟨0, ⟨0, 0⟩, 1, ⟨4, 0⟩, false, false⟩ .kRight).addEdge
    ⟨1, ⟨4, 0⟩, 2, ⟨2, 4⟩, false, false⟩ .kRight

/-! ## Theorems -/

/-- `roundPt` always lands on the quarter-pixel grid. -/
theorem roundPt_onQuarterGrid (q : Pt) : onQuarterGrid (roundPt q) := by
  unfold onQuarterGrid roundPt skScalarRound
  constructor <;>
  · rw [show ∀ n : ℤ, ((n : ℚ) * (1/4) * 4) = ((n : ℚ)) from fun n => by ring]
    exact Rat.den_intCast _

theorem sweepLtB_asym (d : Direction) :
    ∀ u v : Pt × ℕ, sweepLtB d u v = true → sweepLtB d v u = false := by
  intro u v h
  simp only [sweepLtB, decide_eq_true_eq] at h
  simpa [sweepLtB] using sweep_lt_asymm d u.1 v.1 h

theorem sweepLtB_negtrans (d : Direction) :
    ∀ u v w : Pt × ℕ, sweepLtB d v u = false → sweepLtB d w v = false →
      sweepLtB d w u = false := by
  intro u v w h1 h2
  simp only [sweepLtB, decide_eq_false_iff_not] at h1 h2 ⊢
  exact sweep_lt_neg_trans d u.1 v.1 w.1 h1 h2

/-- C5: if the path bounds are strictly wider than tall, the chosen
comparator orders by X ascending with ties broken by Y descending; otherwise
by Y ascending with ties broken by X ascending. The direction is computed
once in `contours_to_polys` (SkGr.cpp:2381) and handed to every stage. -/
theorem claim_C5 (pathBounds : RectWH) (a b : Pt) :
    (pathBounds.height < pathBounds.width →
      (sweep_lt (chooseDirection pathBounds) a b ↔
        (a.x < b.x ∨ (a.x = b.x ∧ b.y < a.y)))) ∧
    (¬ pathBounds.height < pathBounds.width →
      (sweep_lt (chooseDirection pathBounds) a b ↔
        (a.y < b.y ∨ (a.y = b.y ∧ a.x < b.x)))) := by
  constructor <;> intro h <;>
    simp [chooseDirection, h, sweep_lt, sweep_lt_horiz, sweep_lt_vert]

theorem claim_C5_witness :
    sweep_lt (chooseDirection ⟨2, 1⟩) ⟨0, 0⟩ ⟨1, 5⟩ :=
  ((claim_C5 ⟨2, 1⟩ ⟨0, 0⟩ ⟨1, 5⟩).1 (by norm_num)).mpr (by norm_num)

/-- C3 (counterexample): the merge step takes the element of the back
sublist on ties, so two vertices with equal positions come out in reversed
relative order: the sort is not stable. -/
theorem claim_C3_counterexample :
    ((⟨0, 0⟩, 0) : Pt × ℕ).1 = ((⟨0, 0⟩, 1) : Pt × ℕ).1 ∧
    ((⟨0, 0⟩, 0) : Pt × ℕ) ≠ ((⟨0, 0⟩, 1) : Pt × ℕ) ∧
    merge_sort .kVertical [(⟨0, 0⟩, 0), (⟨0, 0⟩, 1)] =
      [(⟨0, 0⟩, 1), (⟨0, 0⟩, 0)] := by
  refine ⟨rfl, by decide, by decide⟩

/-- C3 (amended): stage 3's merge sort emits a permutation of the input
that is sorted under the chosen sweep comparator (adjacent elements never
strictly decrease), but it is not stable: on equal positions the back
sublist's element is taken first. -/
theorem claim_C3_amended (d : Direction) (l : List (Pt × ℕ)) :
    List.Perm (merge_sort d l) l ∧
    (merge_sort d l).Pairwise (fun u v => ¬ sweep_lt d v.1 u.1) := by
  constructor
  · exact mergeSortL_perm _ l
  · have h := mergeSortL_sorted (sweepLtB d) (sweepLtB_asym d) (sweepLtB_negtrans d) l
    exact h.imp (fun hr => by simpa [RleB, sweepLtB] using hr)

/-- C6: `new_edge` orders top strictly before bottom under the sweep
comparator (whenever the endpoints are positionally distinct) and stores the
line equation computed from (top, bottom); `set_top`/`set_bottom` reassign an
endpoint and immediately `recompute()`, re-establishing the line equation;
and the `insert_edge_above`/`insert_edge_below` guard admits an edge into a
vertex's edge lists only if its top strictly precedes its bottom. -/
theorem claim_C6 (d : Direction) :
    (∀ p n : VtxView,
      (new_edge d p n).line =
        lineOf (new_edge d p n).top.pt (new_edge d p n).bot.pt ∧
      (p.pt ≠ n.pt → sweep_lt d (new_edge d p n).top.pt (new_edge d p n).bot.pt)) ∧
    (∀ (e : EdgeRec) (v : VtxView),
      (e.setTop v).line = lineOf (e.setTop v).top.pt (e.setTop v).bot.pt ∧
      (e.setBottom v).line = lineOf (e.setBottom v).top.pt (e.setBottom v).bot.pt) ∧
    (∀ e : EdgeRec, insertableEdge d e → sweep_lt d e.top.pt e.bot.pt) := by
  refine ⟨?_, ?_, ?_⟩
  · intro p n
    unfold new_edge
    by_cases hlt : sweep_lt d p.pt n.pt
    · rw [if_pos hlt]
      norm_num
      exact fun _ => hlt
    · rw [if_neg hlt]
      norm_num
      intro hne
      rcases sweep_lt_total d p.pt n.pt hne with h | h
      · exact absurd h hlt
      · exact h
  · intro e v
    exact ⟨rfl, rfl⟩
  · intro e he
    unfold insertableEdge at he
    push_neg at he
    rcases sweep_lt_total d e.top.pt e.bot.pt he.1 with h | h
    · exact h
    · exact absurd h he.2

theorem claim_C6_witness :
    (new_edge .kVertical ⟨0, ⟨0, 0⟩⟩ ⟨1, ⟨0, 1⟩⟩).line =
      lineOf (new_edge .kVertical ⟨0, ⟨0, 0⟩⟩ ⟨1, ⟨0, 1⟩⟩).top.pt
        (new_edge .kVertical ⟨0, ⟨0, 0⟩⟩ ⟨1, ⟨0, 1⟩⟩).bot.pt ∧
    sweep_lt .kVertical (new_edge .kVertical ⟨0, ⟨0, 0⟩⟩ ⟨1, ⟨0, 1⟩⟩).top.pt
      (new_edge .kVertical ⟨0, ⟨0, 0⟩⟩ ⟨1, ⟨0, 1⟩⟩).bot.pt :=
  ⟨((claim_C6 .kVertical).1 ⟨0, ⟨0, 0⟩⟩ ⟨1, ⟨0, 1⟩⟩).1,
   ((claim_C6 .kVertical).1 ⟨0, ⟨0, 0⟩⟩ ⟨1, ⟨0, 1⟩⟩).2 (by decide)⟩

/-- C9: `Edge::intersect` returns false (none) when the two edges share
their top vertex or share their bottom vertex (pointer identity), and also
when the cross product of the two line directions (`denom`) is zero. -/
theorem claim_C9 (e o : EdgeView) :
    ((e.topId = o.topId ∨ e.botId = o.botId) → EdgeView.intersect e o = none) ∧
    (e.line.a * o.line.b - e.line.b * o.line.a = 0 →
      EdgeView.intersect e o = none) := by
  constructor
  · intro h
    unfold EdgeView.intersect
    rw [if_pos h]
  · intro h
    unfold EdgeView.intersect
    by_cases hid : e.topId = o.topId ∨ e.botId = o.botId
    · rw [if_pos hid]
    · rw [if_neg hid]
      simp [h]

theorem claim_C9_witness :
    EdgeView.intersect
      ⟨0, ⟨0, 0⟩, 255, 1, ⟨0, 1⟩, 255, 1, .kInner, lineOf ⟨0, 0⟩ ⟨0, 1⟩⟩
      ⟨0, ⟨0, 0⟩, 255, 2, ⟨1, 1⟩, 255, 1, .kInner, lineOf ⟨0, 0⟩ ⟨1, 1⟩⟩ = none :=
  (claim_C9 _ _).1 (Or.inl rfl)

/-- C4 (counterexample): two properly crossing edges whose intersection, as
computed by `Edge::intersect` during simplification, lies off the
quarter-pixel grid — no snap is applied there (in either antialiasing mode:
`Edge::intersect` takes no mode flag). The same pair of support lines put
through `Line::intersect` comes back snapped. -/
theorem claim_C4_counterexample :
    EdgeView.intersect c4edge1 c4edge2 = some (⟨2/3, 2/3⟩, 255) ∧
    ¬ onQuarterGrid ⟨2/3, 2/3⟩ ∧
    Line.intersect c4edge1.line c4edge2.line = some ⟨3/4, 3/4⟩ := by
  refine ⟨?_, by norm_num [onQuarterGrid], ?_⟩
  · norm_num [EdgeView.intersect, c4edge1, c4edge2, lineOf]
    decide
  · norm_num [Line.intersect, c4edge1, c4edge2, lineOf, roundPt, skScalarRound]

/-- C4 (amended): the intersection point computed when two edges cross
during simplification (`Edge::intersect`) is used unsnapped in both modes —
it can land off the quarter-pixel grid — while `Line::intersect` (used only
by the antialiased offset construction) snaps its result to the quarter-pixel
grid unconditionally. -/
theorem claim_C4_amended :
    (∀ (l m : Line) (p : Pt), Line.intersect l m = some p → onQuarterGrid p) ∧
    (∃ (e o : EdgeView) (p : Pt) (a : ℚ),
      EdgeView.intersect e o = some (p, a) ∧ ¬ onQuarterGrid p) := by
  constructor
  · intro l m p h
    unfold Line.intersect at h
    by_cases hd : l.a * m.b - l.b * m.a = 0
    · simp [hd] at h
    · simp only [hd, if_neg, if_false] at h
      rw [← Option.some_inj.mp h]
      exact roundPt_onQuarterGrid _
  · refine ⟨c4edge1, c4edge2, ⟨2/3, 2/3⟩, 255, ?_, by norm_num [onQuarterGrid]⟩
    norm_num [EdgeView.intersect, c4edge1, c4edge2, lineOf]
    decide

theorem claim_C4_amended_witness : onQuarterGrid ⟨3/4, 3/4⟩ :=
  claim_C4_amended.1 (lineOf ⟨0, 0⟩ ⟨1, 1⟩) (lineOf ⟨0, 1⟩ ⟨2, 0⟩) ⟨3/4, 3/4⟩
    (by norm_num [Line.intersect, lineOf, roundPt, skScalarRound])

/-- C2 (counterexample): the guard in `get_contour_count` rejects only
`maxPts > 65536`; at a worst-case vertex count of exactly 65536 — which is
greater than 65535 — both entry points proceed and do produce output. -/
theorem claim_C2_counterexample :
    (65535 : ℤ) < 65536 ∧
    get_contour_count 65536 1 = 1 ∧
    PathToTriangles 65536 1 .kWinding false true [c2poly] = 3 ∧
    (PathToVertices 65536 1 .kWinding [c2poly]).1 = 3 ∧
    (PathToVertices 65536 1 .kWinding [c2poly]).2 ≠ VertsOut.untouched := by
  refine ⟨by norm_num, by norm_num [get_contour_count], ?_, ?_, ?_⟩ <;>
    (norm_num [PathToTriangles, PathToVertices, get_contour_count, count_points,
      apply_fill_type, polys_to_triangles, windingVertexRecords, trisToVerts,
      PolyRec.emitTris, MonoPoly.emitTris, MonoPoly.ring, earClipF, convexAt,
      c2poly] <;> decide)

/-- C2 (amended): both entry points return 0 and write no output whenever
the worst-case vertex count is ≤ 0 or greater than 65536. -/
theorem claim_C2_amended (maxPts contourCnt : ℤ) (pathFill : FillType)
    (antialias allocOk : Bool) (ft : FillType) (polys : List PolyRec)
    (h : maxPts ≤ 0 ∨ 65536 < maxPts) :
    PathToTriangles maxPts contourCnt pathFill antialias allocOk polys = 0 ∧
    PathToVertices maxPts contourCnt ft polys = (0, .untouched) := by
  have hc : get_contour_count maxPts contourCnt = 0 := by
    unfold get_contour_count
    rcases h with h | h
    · rw [if_pos h]
    · rw [if_neg (by omega), if_pos h]
  constructor
  · unfold PathToTriangles
    simp [hc]
  · unfold PathToVertices
    simp [hc]

theorem claim_C2_amended_witness :
    PathToTriangles 70000 1 .kWinding false true [] = 0 ∧
    PathToVertices 70000 1 .kWinding [] = (0, .untouched) :=
  claim_C2_amended 70000 1 .kWinding false true .kWinding []
    (Or.inr (by norm_num))

/-- C10: when the computed contour count is ≤ 0, `PathToVertices` returns 0
leaving `*verts` untouched; and `*verts` is set to null exactly when contours
exist but zero triangle vertices are counted. -/
theorem claim_C10 (maxPts contourCnt : ℤ) (ft : FillType) (polys : List PolyRec) :
    (get_contour_count maxPts contourCnt ≤ 0 →
      PathToVertices maxPts contourCnt ft polys = (0, .untouched)) ∧
    ((PathToVertices maxPts contourCnt ft polys).2 = VertsOut.nullArr ↔
      (0 < get_contour_count maxPts contourCnt ∧ count_points polys ft = 0)) := by
  constructor
  · intro h
    simp only [PathToVertices]
    rw [if_pos h]
  · simp only [PathToVertices]
    by_cases h : get_contour_count maxPts contourCnt ≤ 0
    · rw [if_pos h]
      constructor
      · intro hc
        exact VertsOut.noConfusion hc
      · rintro ⟨h1, _⟩
        omega
    · rw [if_neg h]
      by_cases hz : count_points polys ft = 0
      · rw [if_pos hz]
        exact ⟨fun _ => ⟨by omega, hz⟩, fun _ => rfl⟩
      · rw [if_neg hz]
        constructor
        · intro hc
          exact VertsOut.noConfusion hc
        · rintro ⟨_, hzz⟩
          exact absurd hzz hz

theorem claim_C10_witness :
    PathToVertices 0 1 .kWinding [] = (0, .untouched) :=
  (claim_C10 0 1 .kWinding []).1 (by norm_num [get_contour_count])

/-- C1 (counterexample): `PathToVertices` does apply the fill rule at
emission. A winding-2 poly (as tessellation produces where two same-wound
contours overlap) is skipped under even-odd fill: the emission loop yields no
records for it, while the claim-side reading (emit every poly regardless of
winding) yields six. -/
theorem claim_C1_counterexample :
    windingVertexRecords [c1poly] .kEvenOdd = [] ∧
    windingVertexRecordsAllPolys [c1poly] ≠ [] ∧
    PathToVertices 100 1 .kEvenOdd [c1poly] = (0, .nullArr) := by
  refine ⟨?_, ?_, ?_⟩ <;>
    (norm_num [PathToVertices, get_contour_count, count_points, apply_fill_type,
      windingVertexRecords, windingVertexRecordsAllPolys, trisToVerts,
      PolyRec.emitTris, MonoPoly.emitTris, MonoPoly.ring, earClipF, convexAt,
      c1poly] <;> decide)

/-- C1 (amended): `PathToVertices` emits one `{position, winding}` record
per triangle vertex for exactly those polys accepted by the path's fill rule,
in poly order, with the winding copied from the source poly. -/
theorem claim_C1_amended (polys : List PolyRec) (ft : FillType) :
    windingVertexRecords polys ft = windingVertexRecordsFiltered polys ft := by
  induction polys with
  | nil => rfl
  | cons p ps ih =>
    unfold windingVertexRecords windingVertexRecordsFiltered at ih ⊢
    by_cases h : apply_fill_type ft p.winding
    · simp [List.filter_cons, h, ih]
    · simp [List.filter_cons, h, ih]

/-! ### C8: emission never exceeds `count_points` -/

theorem trisToVerts_length (ts : List (Pt × Pt × Pt)) :
    (trisToVerts ts).length = 3 * ts.length := by
  induction ts with
  | nil => rfl
  | cons t ts ih =>
    simp only [trisToVerts, List.foldr_cons, List.length_cons] at ih ⊢
    omega

/-- Each emitted ear removes one interior ring vertex, so the loop emits at
most (ring size − 2) triangles. -/
theorem earClipF_length_le (n : ℕ) :
    ∀ (revBefore : List Pt) (v : Pt) (after : List Pt),
      (earClipF n revBefore v after).length ≤
        revBefore.length + after.length - 1 := by
  induction n with
  | zero =>
    intro rb v af
    simp [earClipF]
  | succ n ih =>
    intro rb v af
    match af with
    | [] => simp [earClipF]
    | nx :: af' =>
      match rb with
      | [] => simp [earClipF]
      | prev :: rr =>
        simp only [earClipF]
        by_cases hc : convexAt prev v nx
        · rw [if_pos hc]
          match rr with
          | [] =>
            have h := ih [prev] nx af'
            simp only [List.length_cons, List.length_nil] at h ⊢
            omega
          | q :: rr' =>
            have h := ih (q :: rr') prev (nx :: af')
            simp only [List.length_cons] at h ⊢
            omega
        · rw [if_neg hc]
          have h := ih (v :: prev :: rr) nx af'
          simp only [List.length_cons] at h ⊢
          omega

theorem MonoPoly.ring_length (m : MonoPoly) (h : m.edges ≠ []) :
    m.ring.length = m.edges.length + 1 := by
  rcases hE : m.edges with _ | ⟨e, es⟩
  · exact absurd hE h
  · rcases m with ⟨s, edges⟩
    simp only at hE
    subst hE
    cases s <;> simp [MonoPoly.ring]

theorem MonoPoly.ring_nil (m : MonoPoly) (h : m.edges = []) : m.ring = [] := by
  rcases m with ⟨s, edges⟩
  simp only at h
  subst h
  cases s <;> simp [MonoPoly.ring]

theorem MonoPoly.emitTris_length_le (m : MonoPoly) :
    (m.emitTris).length ≤ m.edges.length - 1 := by
  unfold MonoPoly.emitTris
  rcases hr : m.ring with _ | ⟨a, rest1⟩
  · simp
  · rcases rest1 with _ | ⟨b, rest⟩
    · simp
    · have hne : m.edges ≠ [] := by
        intro h0
        rw [MonoPoly.ring_nil m h0] at hr
        exact List.noConfusion hr
      have hlen := MonoPoly.ring_length m hne
      rw [hr] at hlen
      have hb := earClipF_length_le ((rest.length + 2) * (rest.length + 2) + 1) [a] b rest
      simp only [List.length_cons, List.length_nil] at hlen hb ⊢
      omega

theorem sumEdges_nil : sumEdges [] = 0 := rfl

theorem sumEdges_cons (m : MonoPoly) (ms : List MonoPoly) :
    sumEdges (m :: ms) = (m.edges.length : ℤ) + sumEdges ms := rfl

theorem sumEdges_append (xs ys : List MonoPoly) :
    sumEdges (xs ++ ys) = sumEdges xs + sumEdges ys := by
  induction xs with
  | nil => simp [sumEdges]
  | cons m xs ih =>
    simp only [List.cons_append, sumEdges_cons, ih]
    ring

theorem getLast?_decomp {α : Type} {l : List α} {t : α} (h : l.getLast? = some t) :
    l = l.dropLast ++ [t] := by
  have hne : l ≠ [] := by rintro rfl; simp at h
  rw [List.getLast?_eq_getLast l hne] at h
  obtain rfl : t = l.getLast hne := (Option.some.inj h).symm
  exact (List.dropLast_append_getLast hne).symm

theorem MonoPoly.addEdge_edges_length (m : MonoPoly) (e : PolyEdge) :
    (m.addEdge e).edges.length = m.edges.length + 1 := by
  rcases m with ⟨s, edges⟩
  cases s <;> simp [MonoPoly.addEdge]

theorem MonoPoly.addEdge_edges_ne_nil (m : MonoPoly) (e : PolyEdge) :
    (m.addEdge e).edges ≠ [] := by
  rcases m with ⟨s, edges⟩
  cases s <;> simp [MonoPoly.addEdge]

theorem monoSingleton_edges_length (e : PolyEdge) (s : Side) :
    (monoSingleton e s).edges.length = 1 := by
  cases s <;> simp [monoSingleton, MonoPoly.addEdge]

theorem monoSingleton_edges_ne_nil (e : PolyEdge) (s : Side) :
    (monoSingleton e s).edges ≠ [] := by
  cases s <;> simp [monoSingleton, MonoPoly.addEdge]

/-- `getLast?` is `none` only on the empty list. -/
theorem getLast?_none {α : Type} {l : List α} (h : l.getLast? = none) : l = [] := by
  rcases l with _ | ⟨x, xs⟩
  · rfl
  · rw [List.getLast?_eq_getLast _ (by simp)] at h
    exact Option.noConfusion h

/-- `Poly::addEdge` preserves the bookkeeping invariant. -/
theorem addEdge_wf {p : PolyRec} (hw : PolyWF p) (e : PolyEdge) (s : Side) :
    PolyWF (p.addEdge e s) := by
  unfold PolyRec.addEdge
  split
  · exact hw
  · dsimp only
    split
    · -- fTail is null: first MonotonePoly, fCount += 2
      next hm =>
      have hmn : p.monos = [] := getLast?_none hm
      right
      refine ⟨by simp, ?_, ?_⟩
      · intro m hmem
        rw [List.mem_singleton] at hmem
        subst hmem
        exact monoSingleton_edges_ne_nil e s
      · rcases hw with ⟨_, hc0⟩ | ⟨hne, _, _⟩
        · simp [hc0, sumEdges_cons, sumEdges, monoSingleton_edges_length]
        · exact absurd hmn hne
    · next tail hm =>
      have hdecomp : p.monos = p.monos.dropLast ++ [tail] := getLast?_decomp hm
      have hne : p.monos ≠ [] := by
        rintro h0
        rw [h0] at hm
        exact Option.noConfusion hm
      rcases hw with ⟨hmn, _⟩ | ⟨_, hall, hcount⟩
      · exact absurd hmn hne
      have htailmem : tail ∈ p.monos := by
        rw [hdecomp]
        simp
      have hsum : sumEdges p.monos = sumEdges p.monos.dropLast + tail.edges.length := by
        conv_lhs => rw [hdecomp]
        rw [sumEdges_append, sumEdges_cons]
        simp [sumEdges]
      have hlen : (p.monos.length : ℤ) = p.monos.dropLast.length + 1 := by
        conv_lhs => rw [hdecomp]
        simp
      split
      · -- fTail has no last edge: impossible for a well-formed poly
        next hte =>
        exact absurd (getLast?_none hte) (hall tail htailmem)
      · next te hte =>
        split
        · -- e->fBottom == fTail->fLastEdge->fBottom: unchanged
          right
          exact ⟨hne, hall, hcount⟩
        · next hbot =>
          split
          · -- same side: append to fTail, fCount += 1
            right
            refine ⟨by simp, ?_, ?_⟩
            · intro m hmem
              rcases List.mem_append.mp hmem with hmem | hmem
              · exact hall m (by rw [hdecomp]; exact List.mem_append.mpr (Or.inl hmem))
              · rw [List.mem_singleton] at hmem
                subst hmem
                exact MonoPoly.addEdge_edges_ne_nil tail e
            · rw [sumEdges_append, sumEdges_cons, sumEdges_nil]
              simp only [MonoPoly.addEdge_edges_length, List.length_append,
                List.length_cons, List.length_nil]
              push_cast
              omega
          · next hside =>
            split
            · -- partner: join edge appended to fTail only, fCount += 1
              right
              refine ⟨by simp, ?_, ?_⟩
              · intro m hmem
                rcases List.mem_append.mp hmem with hmem | hmem
                · exact hall m (by rw [hdecomp]; exact List.mem_append.mpr (Or.inl hmem))
                · rw [List.mem_singleton] at hmem
                  subst hmem
                  exact MonoPoly.addEdge_edges_ne_nil tail _
              · rw [sumEdges_append, sumEdges_cons, sumEdges_nil]
                simp only [MonoPoly.addEdge_edges_length, List.length_append,
                  List.length_cons, List.length_nil]
                push_cast
                omega
            · -- no partner: join edge appended to fTail and a new MonotonePoly
              right
              refine ⟨by simp, ?_, ?_⟩
              · intro m hmem
                rcases List.mem_append.mp hmem with hmem | hmem
                · rcases List.mem_append.mp hmem with hmem | hmem
                  · exact hall m (by rw [hdecomp]; exact List.mem_append.mpr (Or.inl hmem))
                  · rw [List.mem_singleton] at hmem
                    subst hmem
                    exact MonoPoly.addEdge_edges_ne_nil tail _
                · rw [List.mem_singleton] at hmem
                  subst hmem
                  exact monoSingleton_edges_ne_nil _ _
              · rw [sumEdges_append, sumEdges_append, sumEdges_cons, sumEdges_cons,
                  sumEdges_nil]
                simp only [MonoPoly.addEdge_edges_length, monoSingleton_edges_length,
                  List.length_append, List.length_cons, List.length_nil]
                push_cast
                omega

theorem polyBuilt_wf {p : PolyRec} (h : PolyBuilt p) : PolyWF p := by
  induction h with
  | base vId w => exact Or.inl ⟨rfl, rfl⟩
  | step p e s hp ih => exact addEdge_wf ih e s

theorem flatten_emit_le (ms : List MonoPoly) (hne : ∀ m ∈ ms, m.edges ≠ []) :
    (((ms.map MonoPoly.emitTris).flatten.length : ℤ)) ≤ sumEdges ms - ms.length := by
  induction ms with
  | nil => simp [sumEdges]
  | cons m ms ih =>
    have h1 := MonoPoly.emitTris_length_le m
    have hm : m.edges ≠ [] := hne m (by simp)
    have h2 : 1 ≤ m.edges.length := by
      rcases hE : m.edges with _ | _
      · exact absurd hE hm
      · simp
    have ih' := ih (fun q hq => hne q (by simp [hq]))
    simp only [List.map_cons, List.flatten_cons, List.length_append,
      sumEdges_cons, List.length_cons] at ih' ⊢
    push_cast
    omega

theorem count_points_nonneg (polys : List PolyRec) (ft : FillType) :
    0 ≤ count_points polys ft := by
  induction polys with
  | nil => simp [count_points]
  | cons p ps ih =>
    simp only [count_points, List.foldr_cons] at ih ⊢
    by_cases h : apply_fill_type ft p.winding ∧ 3 ≤ p.count
    · rw [if_pos h]
      have := h.2
      nlinarith
    · rw [if_neg h]
      exact ih

theorem poly_emit_le (p : PolyRec) (h : PolyWF p) :
    3 * ((p.emitTris).length : ℤ) ≤ if 3 ≤ p.count then (p.count - 2) * 3 else 0 := by
  unfold PolyRec.emitTris
  by_cases hc : p.count < 3
  · rw [if_pos hc, if_neg (by omega)]
    simp
  · rw [if_neg hc, if_pos (by omega)]
    rcases h with ⟨_, hc0⟩ | ⟨_, hall, hcount⟩
    · omega
    · have hb := flatten_emit_le p.monos hall
      linarith

/-- C8: the number of triangle vertices written by `polys_to_triangles` is at
most `count_points` for the same poly list and fill rule, for every poly
reachable through `new_poly`/`addEdge`; hence `PathToTriangles` never writes
past the `lock(count)` region and passes `unlock` an
`actualCount ≤ count`. -/
theorem claim_C8 (polys : List PolyRec) (ft : FillType)
    (hb : ∀ p ∈ polys, PolyBuilt p) :
    ((polys_to_triangles polys ft).length : ℤ) ≤ count_points polys ft ∧
    (∀ (maxPts contourCnt : ℤ) (allocOk : Bool),
      PathToTriangles maxPts contourCnt ft false allocOk polys ≤
        count_points polys ft) := by
  have main : ((polys_to_triangles polys ft).length : ℤ) ≤ count_points polys ft := by
    induction polys with
    | nil => simp [polys_to_triangles, count_points]
    | cons p ps ih =>
      have hwf : PolyWF p := polyBuilt_wf (hb p (by simp))
      have ihh := ih (fun q hq => hb q (by simp [hq]))
      have hp := poly_emit_le p hwf
      simp only [polys_to_triangles, count_points, List.foldr_cons] at ihh ⊢
      by_cases ha : apply_fill_type ft p.winding
      · by_cases hc : 3 ≤ p.count
        · rw [if_pos ha,
            if_pos (show apply_fill_type ft p.winding ∧ 3 ≤ p.count from ⟨ha, hc⟩)]
          rw [if_pos hc] at hp
          simp only [List.length_append]
          have ht := trisToVerts_length p.emitTris
          push_cast
          omega
        · rw [if_pos ha, if_neg (fun hh => hc hh.2)]
          have hz : p.emitTris = [] := by
            unfold PolyRec.emitTris
            rw [if_pos (by omega)]
          simp only [hz, trisToVerts, List.foldr_nil, List.nil_append]
          exact ihh
      · rw [if_neg ha, if_neg (fun hh => ha hh.1)]
        simpa using ihh
  refine ⟨main, ?_⟩
  intro maxPts contourCnt allocOk
  unfold PathToTriangles
  by_cases h1 : get_contour_count maxPts contourCnt ≤ 0
  · rw [if_pos h1]
    exact count_points_nonneg polys ft
  · rw [if_neg h1]
    rw [show (if (false = true) then FillType.kWinding else ft) = ft from rfl]
    by_cases h2 : count_points polys ft = 0
    · rw [if_pos h2]
      exact count_points_nonneg polys ft
    · rw [if_neg h2]
      by_cases h3 : allocOk
      · simp only [h3]
        simpa using main
      · simp only [h3]
        simpa using count_points_nonneg polys ft

theorem claim_C8_witness :
    ((polys_to_triangles [c8poly] .kWinding).length : ℤ) ≤
      count_points [c8poly] .kWinding :=
  (claim_C8 [c8poly] .kWinding (fun p hp => by
    rw [List.mem_singleton] at hp
    subst hp
    exact PolyBuilt.step _ _ _ (PolyBuilt.step _ _ _ (PolyBuilt.base 0 1)))).1

/-! ## The pipeline machine

A store-based embedding of stages 1-6 for paths made of line segments (the
non-antialiased pipeline; curve linearization and the AA stages 5a-5d are not
required by the claims under study). `Vertex`/`Edge` objects live in stores
indexed by allocation order (the arena); pointers are `Option ℕ`. Loops that
walk pointer chains take explicit fuel; every call site passes fuel that
dominates the loop's step count. -/

/-- `Vertex` (SkGr.cpp:862), with pointers as ids. -/
structure MVtx where
  pt : Pt
  alpha : ℚ
  prev : Option ℕ := none
  next : Option ℕ := none
  firstAbove : Option ℕ := none
  lastAbove : Option ℕ := none
  firstBelow : Option ℕ := none
  lastBelow : Option ℕ := none
  processed : Bool := false
deriving DecidableEq, Repr

/-- `Edge` (SkGr.cpp:1033), with pointers as ids. -/
structure MEdge where
  winding : ℤ
  top : ℕ
  bot : ℕ
  etype : EdgeType
  line : Line
  left : Option ℕ := none
  right : Option ℕ := none
  prevAbove : Option ℕ := none
  nextAbove : Option ℕ := none
  prevBelow : Option ℕ := none
  nextBelow : Option ℕ := none
  leftPoly : Option ℕ := none
  rightPoly : Option ℕ := none
  leftPolyPrev : Option ℕ := none
  leftPolyNext : Option ℕ := none
  rightPolyPrev : Option ℕ := none
  rightPolyNext : Option ℕ := none
  usedInLeft : Bool := false
  usedInRight : Bool := false
deriving DecidableEq, Repr

/-- `Poly` (SkGr.cpp:1154), with pointers as ids. -/
structure MPoly where
  firstVertex : ℕ
  winding : ℤ
  headM : Option ℕ := none
  tailM : Option ℕ := none
  nextP : Option ℕ := none
  partner : Option ℕ := none
  count : ℤ := 0
deriving DecidableEq, Repr

/-- `Poly::MonotonePoly` (SkGr.cpp:1171), with pointers as ids. -/
structure MMono where
  side : Side
  firstEdge : Option ℕ := none
  lastEdge : Option ℕ := none
  prevM : Option ℕ := none
  nextM : Option ℕ := none
deriving DecidableEq, Repr

/-- The arena: stores for the four object kinds, with allocation counters. -/
structure St where
  vs : List (ℕ × MVtx) := []
  es : List (ℕ × MEdge) := []
  ps : List (ℕ × MPoly) := []
  mons : List (ℕ × MMono) := []
  vn : ℕ := 0
  en : ℕ := 0
  pn : ℕ := 0
  mn : ℕ := 0
deriving DecidableEq, Repr

/-- `VertexList` (SkGr.cpp:953): head/tail handle. -/
structure VL where
  hd : Option ℕ := none
  tl : Option ℕ := none
deriving DecidableEq, Repr

/-- `EdgeList` (SkGr.cpp:1128): head/tail handle. -/
structure EL where
  hd : Option ℕ := none
  tl : Option ℕ := none
deriving DecidableEq, Repr

def lookupStore {β : Type} [Inhabited β] (l : List (ℕ × β)) (i : ℕ) : β :=
  match l.find? (fun q => q.1 = i) with
  | some q => q.2
  | none => default

def setStore {β : Type} (l : List (ℕ × β)) (i : ℕ) (b : β) : List (ℕ × β) :=
  l.map (fun q => if q.1 = i then (i, b) else q)

instance : Inhabited MVtx := ⟨{ pt := ⟨0, 0⟩, alpha := 0 }⟩
instance : Inhabited MEdge :=
  ⟨{ winding := 0, top := 0, bot := 0, etype := .kInner, line := ⟨0, 0, 0⟩ }⟩
instance : Inhabited MPoly := ⟨{ firstVertex := 0, winding := 0 }⟩
instance : Inhabited MMono := ⟨{ side := .kLeft }⟩

def getV (st : St) (i : ℕ) : MVtx := lookupStore st.vs i
def getE (st : St) (i : ℕ) : MEdge := lookupStore st.es i
def getP (st : St) (i : ℕ) : MPoly := lookupStore st.ps i
def getM (st : St) (i : ℕ) : MMono := lookupStore st.mons i

def updV (st : St) (i : ℕ) (f : MVtx → MVtx) : St :=
  { st with vs := setStore st.vs i (f (getV st i)) }
def updE (st : St) (i : ℕ) (f : MEdge → MEdge) : St :=
  { st with es := setStore st.es i (f (getE st i)) }
def updP (st : St) (i : ℕ) (f : MPoly → MPoly) : St :=
  { st with ps := setStore st.ps i (f (getP st i)) }
def updM (st : St) (i : ℕ) (f : MMono → MMono) : St :=
  { st with mons := setStore st.mons i (f (getM st i)) }

def allocV (st : St) (v : MVtx) : St × ℕ :=
  ({ st with vs := st.vs ++ [(st.vn, v)], vn := st.vn + 1 }, st.vn)
def allocE (st : St) (e : MEdge) : St × ℕ :=
  ({ st with es := st.es ++ [(st.en, e)], en := st.en + 1 }, st.en)
def allocP (st : St) (p : MPoly) : St × ℕ :=
  ({ st with ps := st.ps ++ [(st.pn, p)], pn := st.pn + 1 }, st.pn)
def allocM (st : St) (m : MMono) : St × ℕ :=
  ({ st with mons := st.mons ++ [(st.mn, m)], mn := st.mn + 1 }, st.mn)

/-! ### `list_insert`/`list_remove` (SkGr.cpp:820-849), one instantiation per
link pair. Each takes the object `t`, the `prev`/`next` neighbours and the
head/tail handle, exactly as the template does. -/

/-- `list_insert` over `Vertex::fPrev/fNext`. -/
def vlInsert (st : St) (vl : VL) (t : ℕ) (prev next : Option ℕ) : St × VL :=
  let st := updV st t (fun v => { v with prev := prev, next := next })
  let st := match prev with
    | some p => updV st p (fun v => { v with next := some t })
    | none => st
  let vl := match prev with
    | some _ => vl
    | none => { vl with hd := some t }
  let st := match next with
    | some nx => updV st nx (fun v => { v with prev := some t })
    | none => st
  let vl := match next with
    | some _ => vl
    | none => { vl with tl := some t }
  (st, vl)

/-- `list_remove` over `Vertex::fPrev/fNext`. -/
def vlRemove (st : St) (vl : VL) (t : ℕ) : St × VL :=
  let tv := getV st t
  let st := match tv.prev with
    | some p => updV st p (fun v => { v with next := tv.next })
    | none => st
  let vl := match tv.prev with
    | some _ => vl
    | none => { vl with hd := tv.next }
  let st := match tv.next with
    | some nx => updV st nx (fun v => { v with prev := tv.prev })
    | none => st
  let vl := match tv.next with
    | some _ => vl
    | none => { vl with tl := tv.prev }
  let st := updV st t (fun v => { v with prev := none, next := none })
  (st, vl)

/-- `list_insert` over `Edge::fLeft/fRight` (the active edge list). -/
def elInsert (st : St) (el : EL) (t : ℕ) (prev next : Option ℕ) : St × EL :=
  let st := updE st t (fun e => { e with left := prev, right := next })
  let st := match prev with
    | some p => updE st p (fun e => { e with right := some t })
    | none => st
  let el := match prev with
    | some _ => el
    | none => { el with hd := some t }
  let st := match next with
    | some nx => updE st nx (fun e => { e with left := some t })
    | none => st
  let el := match next with
    | some _ => el
    | none => { el with tl := some t }
  (st, el)

/-- `list_remove` over `Edge::fLeft/fRight`. -/
def elRemove (st : St) (el : EL) (t : ℕ) : St × EL :=
  let te := getE st t
  let st := match te.left with
    | some p => updE st p (fun e => { e with right := te.right })
    | none => st
  let el := match te.left with
    | some _ => el
    | none => { el with hd := te.right }
  let st := match te.right with
    | some nx => updE st nx (fun e => { e with left := te.left })
    | none => st
  let el := match te.right with
    | some _ => el
    | none => { el with tl := te.left }
  let st := updE st t (fun e => { e with left := none, right := none })
  (st, el)

/-- `EdgeList::contains` (SkGr.cpp:1147). -/
def elContains (st : St) (el : EL) (t : ℕ) : Prop :=
  (getE st t).left ≠ none ∨ (getE st t).right ≠ none ∨ el.hd = some t

instance (st : St) (el : EL) (t : ℕ) : Decidable (elContains st el t) := by
  unfold elContains; infer_instance

/-- `list_insert` over `Edge::fPrevEdgeAbove/fNextEdgeAbove`; head/tail live
in the bottom vertex's `fFirstEdgeAbove/fLastEdgeAbove`. -/
def aboveInsert (st : St) (vtx : ℕ) (t : ℕ) (prev next : Option ℕ) : St :=
  let st := updE st t (fun e => { e with prevAbove := prev, nextAbove := next })
  let st := match prev with
    | some p => updE st p (fun e => { e with nextAbove := some t })
    | none => updV st vtx (fun v => { v with firstAbove := some t })
  match next with
  | some nx => updE st nx (fun e => { e with prevAbove := some t })
  | none => updV st vtx (fun v => { v with lastAbove := some t })

/-- `list_remove` over `Edge::fPrevEdgeAbove/fNextEdgeAbove` with head/tail
in `edge->fBottom` (SkGr.cpp:1602). -/
def aboveRemove (st : St) (t : ℕ) : St :=
  let te := getE st t
  let vtx := te.bot
  let st := match te.prevAbove with
    | some p => updE st p (fun e => { e with nextAbove := te.nextAbove })
    | none => updV st vtx (fun v => { v with firstAbove := te.nextAbove })
  let st := match te.nextAbove with
    | some nx => updE st nx (fun e => { e with prevAbove := te.prevAbove })
    | none => updV st vtx (fun v => { v with lastAbove := te.prevAbove })
  updE st t (fun e => { e with prevAbove := none, nextAbove := none })

/-- `list_insert` over `Edge::fPrevEdgeBelow/fNextEdgeBelow`; head/tail live
in the top vertex's `fFirstEdgeBelow/fLastEdgeBelow`. -/
def belowInsert (st : St) (vtx : ℕ) (t : ℕ) (prev next : Option ℕ) : St :=
  let st := updE st t (fun e => { e with prevBelow := prev, nextBelow := next })
  let st := match prev with
    | some p => updE st p (fun e => { e with nextBelow := some t })
    | none => updV st vtx (fun v => { v with firstBelow := some t })
  match next with
  | some nx => updE st nx (fun e => { e with prevBelow := some t })
  | none => updV st vtx (fun v => { v with lastBelow := some t })

/-- `list_remove` over `Edge::fPrevEdgeBelow/fNextEdgeBelow` with head/tail
in `edge->fTop` (SkGr.cpp:1609). -/
def belowRemove (st : St) (t : ℕ) : St :=
  let te := getE st t
  let vtx := te.top
  let st := match te.prevBelow with
    | some p => updE st p (fun e => { e with nextBelow := te.nextBelow })
    | none => updV st vtx (fun v => { v with firstBelow := te.nextBelow })
  let st := match te.nextBelow with
    | some nx => updE st nx (fun e => { e with prevBelow := te.prevBelow })
    | none => updV st vtx (fun v => { v with lastBelow := te.prevBelow })
  updE st t (fun e => { e with prevBelow := none, nextBelow := none })

/-- Dereference an edge into the view consumed by the `Edge` methods. -/
def edgeViewOf (st : St) (i : ℕ) : EdgeView :=
  let e := getE st i
  ⟨e.top, (getV st e.top).pt, (getV st e.top).alpha,
   e.bot, (getV st e.bot).pt, (getV st e.bot).alpha,
   e.winding, e.etype, e.line⟩

/-- `Edge::isLeftOf` applied to a stored vertex. -/
def eIsLeftOf (st : St) (i v : ℕ) : Prop :=
  0 < (getE st i).line.dist (getV st v).pt

/-- `Edge::isRightOf` applied to a stored vertex. -/
def eIsRightOf (st : St) (i v : ℕ) : Prop :=
  (getE st i).line.dist (getV st v).pt < 0

instance (st : St) (i v : ℕ) : Decidable (eIsLeftOf st i v) := by
  unfold eIsLeftOf; infer_instance

instance (st : St) (i v : ℕ) : Decidable (eIsRightOf st i v) := by
  unfold eIsRightOf; infer_instance

/-- `new_edge` (SkGr.cpp:1494) at store level. -/
def mNewEdge (st : St) (d : Direction) (prevV nextV : ℕ) (ty : EdgeType) : St × ℕ :=
  let w : ℤ := if sweep_lt d (getV st prevV).pt (getV st nextV).pt then 1 else -1
  let top := if w < 0 then nextV else prevV
  let bot := if w < 0 then prevV else nextV
  allocE st { winding := w, top := top, bot := bot, etype := ty,
              line := lineOf (getV st top).pt (getV st bot).pt }

/-- The walk of `insert_edge_above`/`insert_edge_below`: advance while the
list edge is not right of the probe point. -/
def insWalk (st : St) (probe : Pt) (nextLink : MEdge → Option ℕ) :
    ℕ → Option ℕ → Option ℕ → Option ℕ × Option ℕ
  | 0, prev, next => (prev, next)
  | n + 1, prev, next =>
    match next with
    | none => (prev, none)
    | some nx =>
      if (getE st nx).line.dist probe < 0 then (prev, some nx)
      else insWalk st probe nextLink n (some nx) (nextLink (getE st nx))

/-- `insert_edge_above` (SkGr.cpp:1566): guard, walk `v`'s edges-above by
`isRightOf(edge->fTop)`, link in place. -/
def insertEdgeAbove (st : St) (d : Direction) (eid vid : ℕ) : St :=
  let e := getE st eid
  if (getV st e.top).pt = (getV st e.bot).pt ∨
      sweep_lt d (getV st e.bot).pt (getV st e.top).pt then st
  else
    let (prev, next) := insWalk st (getV st e.top).pt (fun ee => ee.nextAbove)
      (st.en + 1) none (getV st vid).firstAbove
    aboveInsert st vid eid prev next

/-- `insert_edge_below` (SkGr.cpp:1584): guard, walk `v`'s edges-below by
`isRightOf(edge->fBottom)`, link in place. -/
def insertEdgeBelow (st : St) (d : Direction) (eid vid : ℕ) : St :=
  let e := getE st eid
  if (getV st e.top).pt = (getV st e.bot).pt ∨
      sweep_lt d (getV st e.bot).pt (getV st e.top).pt then st
  else
    let (prev, next) := insWalk st (getV st e.bot).pt (fun ee => ee.nextBelow)
      (st.en + 1) none (getV st vid).firstBelow
    belowInsert st vid eid prev next

/-- `disconnect` (SkGr.cpp:1616). -/
def disconnectM (st : St) (eid : ℕ) : St :=
  belowRemove (aboveRemove st eid) eid

/-- `erase_edge` (SkGr.cpp:1622). -/
def eraseEdgeM (st : St) (ael : Option EL) (eid : ℕ) : St × Option EL :=
  let st := disconnectM st eid
  match ael with
  | none => (st, none)
  | some el =>
    if elContains st el eid then
      let (st, el) := elRemove st el eid
      (st, some el)
    else (st, some el)

/-- `insert_edge` into the AEL (SkGr.cpp:1507): after `prev`, before
`prev->fRight` (or at the head). -/
def insertEdgeAEL (st : St) (el : EL) (eid : ℕ) (prev : Option ℕ) : St × EL :=
  let next := match prev with
    | some p => (getE st p).right
    | none => el.hd
  elInsert st el eid prev next

/-- The AEL walk of `find_enclosing_edges(Vertex*, ...)` (SkGr.cpp:1520-1529):
from the tail, leftwards while not `isLeftOf(v)`. -/
def findEncWalk (st : St) (vid : ℕ) :
    ℕ → Option ℕ → Option ℕ → Option ℕ × Option ℕ
  | 0, prev, next => (prev, next)
  | n + 1, prev, next =>
    match prev with
    | none => (none, next)
    | some p =>
      if eIsLeftOf st p vid then (some p, next)
      else findEncWalk st vid n ((getE st p).left) (some p)

/-- `find_enclosing_edges` for a vertex (SkGr.cpp:1514). -/
def findEnclosing (st : St) (el : EL) (vid : ℕ) : Option ℕ × Option ℕ :=
  let v := getV st vid
  match v.firstAbove, v.lastAbove with
  | some fa, some la => ((getE st fa).left, (getE st la).right)
  | _, _ => findEncWalk st vid (st.en + 1) el.tl none

/-- The break test of `find_enclosing_edges(Edge*, ...)` (SkGr.cpp:1536). -/
def encEdgeBreak (st : St) (d : Direction) (eid nid : ℕ) : Prop :=
  (sweep_lt d (getV st (getE st nid).top).pt (getV st (getE st eid).top).pt ∧
    eIsRightOf st nid (getE st eid).top) ∨
  (sweep_lt d (getV st (getE st eid).top).pt (getV st (getE st nid).top).pt ∧
    eIsLeftOf st eid (getE st nid).top) ∨
  (sweep_lt d (getV st (getE st eid).bot).pt (getV st (getE st nid).bot).pt ∧
    eIsRightOf st nid (getE st eid).bot) ∨
  (sweep_lt d (getV st (getE st nid).bot).pt (getV st (getE st eid).bot).pt ∧
    eIsLeftOf st eid (getE st nid).bot)

instance (st : St) (d : Direction) (eid nid : ℕ) :
    Decidable (encEdgeBreak st d eid nid) := by
  unfold encEdgeBreak; infer_instance

/-- `find_enclosing_edges` for an edge (SkGr.cpp:1532): from the head,
rightwards until the break test fires. -/
def findEncEdgeWalk (st : St) (d : Direction) (eid : ℕ) :
    ℕ → Option ℕ → Option ℕ → Option ℕ × Option ℕ
  | 0, prev, next => (prev, next)
  | n + 1, prev, next =>
    match next with
    | none => (prev, none)
    | some nx =>
      if encEdgeBreak st d eid nx then (prev, some nx)
      else findEncEdgeWalk st d eid n (some nx) ((getE st nx).right)

/-- `fix_active_state` (SkGr.cpp:1550). -/
def fixActiveState (st : St) (d : Direction) (ael : Option EL) (eid : ℕ) :
    St × Option EL :=
  match ael with
  | none => (st, none)
  | some el =>
    if elContains st el eid then
      if (getV st (getE st eid).bot).processed = true ∨
          (getV st (getE st eid).top).processed = false then
        let (st, el) := elRemove st el eid
        (st, some el)
      else (st, some el)
    else
      if (getV st (getE st eid).top).processed = true ∧
          (getV st (getE st eid).bot).processed = false then
        let (left, _) := findEncEdgeWalk st d eid (st.en + 1) none el.hd
        let (st, el) := insertEdgeAEL st el eid left
        (st, some el)
      else (st, some el)

/-- `max_edge_alpha` (SkGr.cpp:1782). -/
def maxEdgeAlpha (st : St) (a b : ℕ) : ℚ :=
  if (getE st a).etype = .kInner ∨ (getE st b).etype = .kInner then 255
  else if (getE st a).etype = .kOuter ∧ (getE st b).etype = .kOuter then 0
  else
    max (max (getV st (getE st a).top).alpha (getV st (getE st a).bot).alpha)
        (max (getV st (getE st b).top).alpha (getV st (getE st b).bot).alpha)

/-! ### The mutually recursive topology-repair operations
(`set_top`, `set_bottom`, `merge_edges_above/below`, `merge_collinear_edges`,
`split_edge`, `cleanup_active_edges`; SkGr.cpp:1632-1752). The C++ recursion
terminates by geometric progress; here a shared fuel argument makes the
recursion structural, and every pipeline call site passes fuel that dominates
the actual recursion depth. -/

mutual

/-- `set_top` (SkGr.cpp:1632). -/
def setTopM (fuel : ℕ) (st : St) (d : Direction) (ael : Option EL) (eid vid : ℕ) :
    St × Option EL :=
  match fuel with
  | 0 => (st, ael)
  | n + 1 =>
    let st := belowRemove st eid
    let st := updE st eid (fun e =>
      { e with top := vid, line := lineOf (getV st vid).pt (getV st e.bot).pt })
    let st := insertEdgeBelow st d eid vid
    let (st, ael) := fixActiveState st d ael eid
    mergeCollinearM n st d ael eid

/-- `set_bottom` (SkGr.cpp:1641). -/
def setBotM (fuel : ℕ) (st : St) (d : Direction) (ael : Option EL) (eid vid : ℕ) :
    St × Option EL :=
  match fuel with
  | 0 => (st, ael)
  | n + 1 =>
    let st := aboveRemove st eid
    let st := updE st eid (fun e =>
      { e with bot := vid, line := lineOf (getV st e.top).pt (getV st vid).pt })
    let st := insertEdgeAbove st d eid vid
    let (st, ael) := fixActiveState st d ael eid
    mergeCollinearM n st d ael eid

/-- `merge_edges_above` (SkGr.cpp:1650). -/
def mergeEdgesAboveM (fuel : ℕ) (st : St) (d : Direction) (ael : Option EL)
    (eid oid : ℕ) : St × Option EL :=
  match fuel with
  | 0 => (st, ael)
  | n + 1 =>
    if (getV st (getE st eid).top).pt = (getV st (getE st oid).top).pt then
      let st := updE st oid (fun o => { o with winding := o.winding + (getE st eid).winding })
      eraseEdgeM st ael eid
    else if sweep_lt d (getV st (getE st eid).top).pt (getV st (getE st oid).top).pt then
      let st := updE st oid (fun o => { o with winding := o.winding + (getE st eid).winding })
      setBotM n st d ael eid (getE st oid).top
    else
      let st := updE st eid (fun e => { e with winding := e.winding + (getE st oid).winding })
      setBotM n st d ael oid (getE st eid).top

/-- `merge_edges_below` (SkGr.cpp:1666). -/
def mergeEdgesBelowM (fuel : ℕ) (st : St) (d : Direction) (ael : Option EL)
    (eid oid : ℕ) : St × Option EL :=
  match fuel with
  | 0 => (st, ael)
  | n + 1 =>
    if (getV st (getE st eid).bot).pt = (getV st (getE st oid).bot).pt then
      let st := updE st oid (fun o => { o with winding := o.winding + (getE st eid).winding })
      eraseEdgeM st ael eid
    else if sweep_lt d (getV st (getE st eid).bot).pt (getV st (getE st oid).bot).pt then
      let st := updE st eid (fun e => { e with winding := e.winding + (getE st oid).winding })
      setTopM n st d ael oid (getE st eid).bot
    else
      let st := updE st oid (fun o => { o with winding := o.winding + (getE st eid).winding })
      setTopM n st d ael eid (getE st oid).bot

/-- `merge_collinear_edges` (SkGr.cpp:1682): the above-list check block,
then the below-list check block on the resulting state. -/
def mergeCollinearM (fuel : ℕ) (st : St) (d : Direction) (ael : Option EL)
    (eid : ℕ) : St × Option EL :=
  match fuel with
  | 0 => (st, ael)
  | n + 1 =>
    let (st, ael) :=
      match (getE st eid).prevAbove with
      | some pa =>
        if (getE st eid).top = (getE st pa).top ∨ ¬ eIsLeftOf st pa (getE st eid).top then
          mergeEdgesAboveM n st d ael eid pa
        else
          match (getE st eid).nextAbove with
          | some na =>
            if (getE st eid).top = (getE st na).top ∨
                ¬ eIsLeftOf st eid (getE st na).top then
              mergeEdgesAboveM n st d ael eid na
            else (st, ael)
          | none => (st, ael)
      | none =>
        match (getE st eid).nextAbove with
        | some na =>
          if (getE st eid).top = (getE st na).top ∨
              ¬ eIsLeftOf st eid (getE st na).top then
            mergeEdgesAboveM n st d ael eid na
          else (st, ael)
        | none => (st, ael)
    match (getE st eid).prevBelow with
    | some pb =>
      if (getE st eid).bot = (getE st pb).bot ∨ ¬ eIsLeftOf st pb (getE st eid).bot then
        mergeEdgesBelowM n st d ael eid pb
      else
        match (getE st eid).nextBelow with
        | some nb =>
          if (getE st eid).bot = (getE st nb).bot ∨
              ¬ eIsLeftOf st eid (getE st nb).bot then
            mergeEdgesBelowM n st d ael eid nb
          else (st, ael)
        | none => (st, ael)
    | none =>
      match (getE st eid).nextBelow with
      | some nb =>
        if (getE st eid).bot = (getE st nb).bot ∨
            ¬ eIsLeftOf st eid (getE st nb).bot then
          mergeEdgesBelowM n st d ael eid nb
        else (st, ael)
      | none => (st, ael)

/-- `cleanup_active_edges` (SkGr.cpp:1701). `top`/`bottom` are cached at
entry, as in the source. -/
def cleanupActiveM (fuel : ℕ) (st : St) (d : Direction) (ael : Option EL)
    (eid : ℕ) : St × Option EL :=
  match fuel with
  | 0 => (st, ael)
  | n + 1 =>
    let top := (getE st eid).top
    let bot := (getE st eid).bot
    let (st, ael) :=
      match (getE st eid).left with
      | some l =>
        let leftTop := (getE st l).top
        let leftBot := (getE st l).bot
        if sweep_lt d (getV st leftTop).pt (getV st top).pt ∧
            ¬ eIsLeftOf st l top then
          splitEdgeM n st d ael l top
        else if sweep_lt d (getV st top).pt (getV st leftTop).pt ∧
            ¬ eIsRightOf st eid leftTop then
          splitEdgeM n st d ael eid leftTop
        else if sweep_lt d (getV st bot).pt (getV st leftBot).pt ∧
            ¬ eIsLeftOf st l bot then
          splitEdgeM n st d ael l bot
        else if sweep_lt d (getV st leftBot).pt (getV st bot).pt ∧
            ¬ eIsRightOf st eid leftBot then
          splitEdgeM n st d ael eid leftBot
        else (st, ael)
      | none => (st, ael)
    match (getE st eid).right with
    | some r =>
      let rightTop := (getE st r).top
      let rightBot := (getE st r).bot
      if sweep_lt d (getV st rightTop).pt (getV st top).pt ∧
          ¬ eIsRightOf st r top then
        splitEdgeM n st d ael r top
      else if sweep_lt d (getV st top).pt (getV st rightTop).pt ∧
          ¬ eIsLeftOf st eid rightTop then
        splitEdgeM n st d ael eid rightTop
      else if sweep_lt d (getV st bot).pt (getV st rightBot).pt ∧
          ¬ eIsRightOf st r bot then
        splitEdgeM n st d ael r bot
      else if sweep_lt d (getV st rightBot).pt (getV st bot).pt ∧
          ¬ eIsLeftOf st eid rightBot then
        splitEdgeM n st d ael eid rightBot
      else (st, ael)
    | none => (st, ael)

/-- `split_edge` (SkGr.cpp:1735). -/
def splitEdgeM (fuel : ℕ) (st : St) (d : Direction) (ael : Option EL)
    (eid vid : ℕ) : St × Option EL :=
  match fuel with
  | 0 => (st, ael)
  | n + 1 =>
    if sweep_lt d (getV st vid).pt (getV st (getE st eid).top).pt then
      setTopM n st d ael eid vid
    else if sweep_lt d (getV st (getE st eid).bot).pt (getV st vid).pt then
      setBotM n st d ael eid vid
    else
      let origBot := (getE st eid).bot
      let (st, newId) := allocE st
        { winding := (getE st eid).winding, top := vid, bot := origBot,
          etype := (getE st eid).etype,
          line := lineOf (getV st vid).pt (getV st origBot).pt }
      let st := insertEdgeBelow st d newId vid
      let st := insertEdgeAbove st d newId origBot
      let (st, ael) := setBotM n st d ael eid vid
      let (st, ael) := cleanupActiveM n st d ael eid
      let (st, ael) := fixActiveState st d ael newId
      mergeCollinearM n st d ael newId

end

/-! ### Stage 1 (line segments), contour sanitization and loading -/

/-- `SkPath` verbs for paths made of line segments. -/
inductive PVerb where
  | move (p : Pt)
  | line (p : Pt)
  | close
deriving DecidableEq, Repr

/-- `path_to_contours` (SkGr.cpp:1390) for line-segment verbs: `move` starts
a new contour, `line` appends, `close`/end emit the contour. -/
def pathToContoursM : List PVerb → List Pt → List (List Pt)
  | [], cur => if cur = [] then [] else [cur]
  | .move p :: rest, cur =>
    (if cur = [] then [] else [cur]) ++ pathToContoursM rest [p]
  | .line p :: rest, cur => pathToContoursM rest (cur ++ [p])
  | .close :: rest, cur =>
    (if cur = [] then [] else [cur]) ++ pathToContoursM rest []

/-- Remove the first element that equals its (linear) predecessor. -/
def removeFirstAdjDup : List Pt → Option (List Pt)
  | [] => none
  | [_] => none
  | x :: y :: rest =>
    if y = x then some (x :: rest)
    else (removeFirstAdjDup (y :: rest)).map (fun t => x :: t)

/-- One removal step of `sanitize_contours` (SkGr.cpp:1850) on a cyclic
contour: drop a vertex coincident with its cyclic predecessor (a singleton
contour is dropped entirely, as `contours[i] = nullptr`). -/
def sanitizeStepF (l : List Pt) : Option (List Pt) :=
  match l with
  | [] => none
  | [_] => some []
  | x :: xs =>
    match removeFirstAdjDup (x :: xs) with
    | some l' => some l'
    | none => if (x :: xs).getLast? = some x then some xs else none

/-- `sanitize_contours` for one contour (non-antialiased: no rounding), as
the fixpoint of coincident-adjacent removal. The source walks the circular
list in place; the resulting cyclic vertex sequence is the same up to
rotation, which the later stages do not observe (edges come from cyclic
pairs and the vertex list is re-sorted). -/
def sanitizeFix : ℕ → List Pt → List Pt
  | 0, l => l
  | n + 1, l =>
    match sanitizeStepF l with
    | some l' => sanitizeFix n l'
    | none => l

def sanitizeContourM (l : List Pt) : List Pt := sanitizeFix (l.length + 1) l

/-- Allocate a contour's vertices (alpha 255, as `append_point_to_contour`)
and link them circularly. -/
def loadContour (st : St) (pts : List Pt) : St × List ℕ :=
  let stIds := pts.foldl
    (fun (acc : St × List ℕ) p =>
      let (st, i) := allocV acc.1 { pt := p, alpha := 255 }
      (st, acc.2 ++ [i]))
    (st, [])
  let st := stIds.1
  let ids := stIds.2
  let n := ids.length
  let st := (List.range n).foldl
    (fun st j =>
      updV st (ids.getD j 0) (fun v =>
        { v with prev := some (ids.getD ((j + n - 1) % n) 0),
                 next := some (ids.getD ((j + 1) % n) 0) }))
    st
  (st, ids)

/-- Common fuel bound for the fueled loops, from the arena counters. -/
def bigFuel (st : St) : ℕ := (st.vn + st.en + 16) * (st.vn + st.en + 16)

/-- `connect` (SkGr.cpp:1754) with the default winding scale 1 (the
non-antialiased pipeline never passes another scale). -/
def connectM (st : St) (d : Direction) (prevV nextV : ℕ) (ty : EdgeType) :
    St × ℕ :=
  let (st, eid) := mNewEdge st d prevV nextV ty
  let st := insertEdgeBelow st d eid (getE st eid).top
  let st := insertEdgeAbove st d eid (getE st eid).bot
  let (st, _) := mergeCollinearM (bigFuel st) st d none eid
  (st, eid)

/-- The per-contour `connect(v->fPrev, v, ...)` calls of `build_edges`
(SkGr.cpp:1893): one edge per cyclic pair. -/
def connectContour (st : St) (d : Direction) (ids : List ℕ) : St :=
  let n := ids.length
  (List.range n).foldl
    (fun st j =>
      (connectM st d (ids.getD ((j + n - 1) % n) 0) (ids.getD j 0) .kInner).1)
    st

/-- Relink the given vertices into a linear mesh list (head to tail). -/
def relinkMesh (st : St) (ids : List ℕ) : St × VL :=
  match ids with
  | [] => (st, ⟨none, none⟩)
  | _ =>
    let n := ids.length
    let st := (List.range n).foldl
      (fun st j =>
        updV st (ids.getD j 0) (fun v =>
          { v with prev := if j = 0 then none else some (ids.getD (j - 1) 0),
                   next := if j = n - 1 then none else some (ids.getD (j + 1) 0) }))
      st
    (st, ⟨some (ids.getD 0 0), some (ids.getD (n - 1) 0)⟩)

/-- `build_edges` (SkGr.cpp:1893): connect all cyclic pairs, then collect
every contour vertex into one linear mesh list (the source interleaves the
relinking with the `connect` calls; the two orders give the same state since
`connect` does not touch `fPrev`/`fNext`). -/
def buildEdgesM (st : St) (d : Direction) (contours : List (List ℕ)) : St × VL :=
  let st := contours.foldl (fun st ids => connectContour st d ids) st
  relinkMesh st contours.flatten

/-- Collect the mesh list's vertex ids by walking `fNext`. -/
def meshToList (st : St) : ℕ → Option ℕ → List ℕ
  | 0, _ => []
  | _ + 1, none => []
  | n + 1, some vid => vid :: meshToList st n (getV st vid).next

/-! ### Stage 3-4 drivers: coincidence collapse, intersection checks,
simplify -/

/-- The `set_bottom` retargeting loop of `merge_vertices` (SkGr.cpp:1769). -/
def retargetAbove (st : St) (d : Direction) : ℕ → Option ℕ → ℕ → St
  | 0, _, _ => st
  | n + 1, cur, dst =>
    match cur with
    | none => st
    | some eid =>
      let nxt := (getE st eid).nextAbove
      let (st, _) := setBotM (bigFuel st) st d none eid dst
      retargetAbove st d n nxt dst

/-- The `set_top` retargeting loop of `merge_vertices` (SkGr.cpp:1774). -/
def retargetBelow (st : St) (d : Direction) : ℕ → Option ℕ → ℕ → St
  | 0, _, _ => st
  | n + 1, cur, dst =>
    match cur with
    | none => st
    | some eid =>
      let nxt := (getE st eid).nextBelow
      let (st, _) := setTopM (bigFuel st) st d none eid dst
      retargetBelow st d n nxt dst

/-- `merge_vertices` (SkGr.cpp:1764). -/
def mergeVerticesM (st : St) (d : Direction) (vl : VL) (src dst : ℕ) : St × VL :=
  let st := updV st dst (fun v => { v with alpha := max (getV st src).alpha v.alpha })
  let st := retargetAbove st d (st.en + 1) ((getV st src).firstAbove) dst
  let st := retargetBelow st d (st.en + 1) ((getV st src).firstBelow) dst
  vlRemove st vl src

/-- `merge_coincident_vertices` (SkGr.cpp:1880). -/
def mergeCoincidentLoop (st : St) (d : Direction) (vl : VL) :
    ℕ → Option ℕ → St × VL
  | 0, _ => (st, vl)
  | n + 1, cur =>
    match cur with
    | none => (st, vl)
    | some vid =>
      let st :=
        match (getV st vid).prev with
        | some pv =>
          if sweep_lt d (getV st vid).pt (getV st pv).pt then
            updV st vid (fun v => { v with pt := (getV st pv).pt })
          else st
        | none => st
      match (getV st vid).prev with
      | some pv =>
        if (getV st pv).pt = (getV st vid).pt then
          let (st, vl) := mergeVerticesM st d vl pv vid
          mergeCoincidentLoop st d vl n ((getV st vid).next)
        else mergeCoincidentLoop st d vl n ((getV st vid).next)
      | none => mergeCoincidentLoop st d vl n ((getV st vid).next)

/-- The backwards walk of `check_for_intersection` (SkGr.cpp:1817). -/
def cfiWalkPrev (st : St) (d : Direction) (p : Pt) : ℕ → ℕ → ℕ
  | 0, cur => cur
  | n + 1, cur =>
    if sweep_lt d p (getV st cur).pt then
      match (getV st cur).prev with
      | some pr => cfiWalkPrev st d p n pr
      | none => cur
    else cur

/-- The forwards walk of `check_for_intersection` (SkGr.cpp:1820). -/
def cfiWalkNext (st : St) (d : Direction) (p : Pt) : ℕ → ℕ → ℕ
  | 0, cur => cur
  | n + 1, cur =>
    if sweep_lt d (getV st cur).pt p then
      match (getV st cur).next with
      | some nx => cfiWalkNext st d p n nx
      | none => cur
    else cur

/-- `check_for_intersection` (SkGr.cpp:1793). Returns the intersection
vertex, if one was found or made. -/
def checkForIntersectionM (fuel : ℕ) (st : St) (d : Direction) (ael : Option EL)
    (edgeO otherO : Option ℕ) : St × Option EL × Option ℕ :=
  match edgeO, otherO with
  | some eid, some oid =>
    match EdgeView.intersect (edgeViewOf st eid) (edgeViewOf st oid) with
    | none => (st, ael, none)
    | some (p, alpha) =>
      let eTop := (getE st eid).top
      let eBot := (getE st eid).bot
      let oTop := (getE st oid).top
      let oBot := (getE st oid).bot
      let finish := fun (st : St) (ael : Option EL) (v : ℕ) =>
        (updV st v (fun vv => { vv with alpha := max vv.alpha alpha }), ael, some v)
      if p = (getV st eTop).pt ∨ sweep_lt d p (getV st eTop).pt then
        let (st, ael) := splitEdgeM fuel st d ael oid eTop
        finish st ael eTop
      else if p = (getV st eBot).pt ∨ sweep_lt d (getV st eBot).pt p then
        let (st, ael) := splitEdgeM fuel st d ael oid eBot
        finish st ael eBot
      else if p = (getV st oTop).pt ∨ sweep_lt d p (getV st oTop).pt then
        let (st, ael) := splitEdgeM fuel st d ael eid oTop
        finish st ael oTop
      else if p = (getV st oBot).pt ∨ sweep_lt d (getV st oBot).pt p then
        let (st, ael) := splitEdgeM fuel st d ael eid oBot
        finish st ael oBot
      else
        let nextV := cfiWalkNext st d p (st.vn + 1) (cfiWalkPrev st d p (st.vn + 1) eTop)
        let stv :=
          match (getV st nextV).prev with
          | some pv =>
            if (getV st pv).pt = p then (st, pv)
            else if (getV st nextV).pt = p then (st, nextV)
            else
              let (st, v) := allocV st
                { pt := p, alpha := alpha, prev := some pv, next := some nextV }
              let st := updV st pv (fun vv => { vv with next := some v })
              let st := updV st nextV (fun vv => { vv with prev := some v })
              (st, v)
          | none =>
            if (getV st nextV).pt = p then (st, nextV)
            else
              let (st, v) := allocV st
                { pt := p, alpha := alpha, prev := none, next := some nextV }
              let st := updV st nextV (fun vv => { vv with prev := some v })
              (st, v)
        let st := stv.1
        let v := stv.2
        let (st, ael) := splitEdgeM fuel st d ael eid v
        let (st, ael) := splitEdgeM fuel st d ael oid v
        finish st ael v
  | _, _ => (st, ael, none)

/-- The below-edge intersection checks of one `simplify` iteration
(SkGr.cpp:1984-1993): test each edge below `v` against the left and right
enclosing edges; stop at the first intersection. -/
def simplifyBelowChecks (st : St) (d : Direction) (el : EL) (le re : Option ℕ) :
    ℕ → Option ℕ → St × EL × Bool
  | 0, _ => (st, el, false)
  | n + 1, cur =>
    match cur with
    | none => (st, el, false)
    | some eid =>
      let (st, ael, v1) := checkForIntersectionM (bigFuel st) st d (some el) (some eid) le
      let el := ael.getD el
      match v1 with
      | some _ => (st, el, true)
      | none =>
        let (st, ael, v2) := checkForIntersectionM (bigFuel st) st d (some el) (some eid) re
        let el := ael.getD el
        match v2 with
        | some _ => (st, el, true)
        | none => simplifyBelowChecks st d el le re n ((getE st eid).nextBelow)

/-- The `restartChecks` loop of `simplify` (SkGr.cpp:1980-2004). Returns the
final state, the (possibly reassigned) current vertex and the enclosing
edges. -/
def simplifyRestart (d : Direction) :
    ℕ → St → EL → ℕ → St × EL × ℕ × Option ℕ × Option ℕ
  | 0, st, el, vid => (st, el, vid, none, none)
  | n + 1, st, el, vid =>
    let (le, re) := findEnclosing st el vid
    if (getV st vid).firstBelow ≠ none then
      let (st, el, restart) :=
        simplifyBelowChecks st d el le re (st.en + 1) ((getV st vid).firstBelow)
      if restart then simplifyRestart d n st el vid
      else (st, el, vid, le, re)
    else
      let (st, ael, pv) := checkForIntersectionM (bigFuel st) st d (some el) le re
      let el := ael.getD el
      match pv with
      | some pvid =>
        let vid' := if sweep_lt d (getV st pvid).pt (getV st vid).pt then pvid else vid
        simplifyRestart d n st el vid'
      | none => (st, el, vid, le, re)

/-- Remove all of `v`'s edges-above from the AEL (SkGr.cpp:2011). -/
def removeAboveFromAEL (st : St) (el : EL) : ℕ → Option ℕ → St × EL
  | 0, _ => (st, el)
  | n + 1, cur =>
    match cur with
    | none => (st, el)
    | some eid =>
      let nxt := (getE st eid).nextAbove
      let (st, el) := elRemove st el eid
      removeAboveFromAEL st el n nxt

/-- Insert all of `v`'s edges-below into the AEL after `leftEdge`
(SkGr.cpp:2014-2018). -/
def insertBelowIntoAEL (st : St) (el : EL) : ℕ → Option ℕ → Option ℕ → St × EL
  | 0, _, _ => (st, el)
  | n + 1, cur, leftEdge =>
    match cur with
    | none => (st, el)
    | some eid =>
      let (st, el) := insertEdgeAEL st el eid leftEdge
      insertBelowIntoAEL st el n ((getE st eid).nextBelow) (some eid)

/-- `simplify` (SkGr.cpp:1967). -/
def simplifyLoop (d : Direction) : ℕ → St → EL → Option ℕ → St
  | 0, st, _, _ => st
  | n + 1, st, el, cur =>
    match cur with
    | none => st
    | some vid0 =>
      if (getV st vid0).firstAbove = none ∧ (getV st vid0).firstBelow = none then
        simplifyLoop d n st el ((getV st vid0).next)
      else
        let (st, el, vid, le, re) := simplifyRestart d (bigFuel st) st el vid0
        let st :=
          if (getV st vid).alpha = 0 then
            match le, re with
            | some l, some r =>
              if (getE st l).winding < 0 ∧ 0 < (getE st r).winding then
                updV st vid (fun v => { v with alpha := maxEdgeAlpha st l r })
              else st
            | _, _ => st
          else st
        let (st, el) := removeAboveFromAEL st el (st.en + 1) ((getV st vid).firstAbove)
        let (st, el) := insertBelowIntoAEL st el (st.en + 1) ((getV st vid).firstBelow) le
        let st := updV st vid (fun v => { v with processed := true })
        simplifyLoop d n st el ((getV st vid).next)

/-- `sort_and_simplify` (SkGr.cpp:2357): merge sort the mesh list (see
`merge_sort`), collapse coincident vertices, then simplify. -/
def sortAndSimplifyM (st : St) (d : Direction) (vl : VL) : St × VL :=
  match vl.hd with
  | none => (st, vl)
  | some hd =>
    let ids := meshToList st (st.vn + 1) (some hd)
    let sorted := merge_sort d (ids.map (fun i => ((getV st i).pt, i)))
    let (st, vl) := relinkMesh st (sorted.map (fun q => q.2))
    let start := match vl.hd with
      | some h => (getV st h).next
      | none => none
    let (st, vl) := mergeCoincidentLoop st d vl (st.vn + 1) start
    let st := simplifyLoop d (bigFuel st) st ⟨none, none⟩ vl.hd
    (st, vl)

/-! ### Stage 5: tessellation into monotone polys (SkGr.cpp:2025-2131) -/

/-- `MonotonePoly::addEdge` (SkGr.cpp:1185) at store level: thread the edge
into the side chain at `fLastEdge`, marking it used on that side. -/
def monoAddEdgeM (st : St) (mid eid : ℕ) : St :=
  let m := getM st mid
  match m.side with
  | .kRight =>
    let st := updE st eid (fun e =>
      { e with rightPolyPrev := m.lastEdge, rightPolyNext := none,
               usedInRight := true })
    let st := match m.lastEdge with
      | some le => updE st le (fun e => { e with rightPolyNext := some eid })
      | none => st
    updM st mid (fun mm =>
      { mm with lastEdge := some eid,
                firstEdge := if m.lastEdge = none then some eid else mm.firstEdge })
  | .kLeft =>
    let st := updE st eid (fun e =>
      { e with leftPolyPrev := m.lastEdge, leftPolyNext := none,
               usedInLeft := true })
    let st := match m.lastEdge with
      | some le => updE st le (fun e => { e with leftPolyNext := some eid })
      | none => st
    updM st mid (fun mm =>
      { mm with lastEdge := some eid,
                firstEdge := if m.lastEdge = none then some eid else mm.firstEdge })

/-- The `MonotonePoly(edge, side)` constructor (SkGr.cpp:1172). -/
def allocMono (st : St) (eid : ℕ) (s : Side) : St × ℕ :=
  let (st, mid) := allocM st { side := s }
  (monoAddEdgeM st mid eid, mid)

/-- `Poly::lastVertex` (SkGr.cpp:1290). -/
def lastVertexM (st : St) (pid : ℕ) : ℕ :=
  match (getP st pid).tailM with
  | some t =>
    match (getM st t).lastEdge with
    | some le => (getE st le).bot
    | none => (getP st pid).firstVertex
  | none => (getP st pid).firstVertex

/-- `Poly::addEdge` (SkGr.cpp:1239) at store level; returns the current poly
(the partner when the join edge was forwarded there). `fuel` bounds the
partner recursion (depth 1, since both partner links are cleared first). -/
def polyAddEdgeM : ℕ → St → ℕ → ℕ → Side → St × ℕ
  | 0, st, pid, _, _ => (st, pid)
  | n + 1, st, pid, eid, s =>
    let used := match s with
      | .kRight => (getE st eid).usedInRight
      | .kLeft => (getE st eid).usedInLeft
    if used then (st, pid)
    else
      let partner := (getP st pid).partner
      let st := match partner with
        | some q =>
          let st := updP st pid (fun p => { p with partner := none })
          updP st q (fun p => { p with partner := none })
        | none => st
      match (getP st pid).tailM with
      | none =>
        let (st, mid) := allocMono st eid s
        let st := updP st pid (fun p =>
          { p with headM := some mid, tailM := some mid, count := p.count + 2 })
        (st, pid)
      | some tail =>
        match (getM st tail).lastEdge with
        | none => (st, pid)
        | some te =>
          if (getE st eid).bot = (getE st te).bot then (st, pid)
          else if s = (getM st tail).side then
            let st := monoAddEdgeM st tail eid
            let st := updP st pid (fun p => { p with count := p.count + 1 })
            (st, pid)
          else
            let (st, jid) := allocE st
              { winding := 1, top := (getE st te).bot, bot := (getE st eid).bot,
                etype := .kInner,
                line := lineOf (getV st (getE st te).bot).pt
                               (getV st (getE st eid).bot).pt }
            let st := monoAddEdgeM st tail jid
            let st := updP st pid (fun p => { p with count := p.count + 1 })
            match partner with
            | some q => polyAddEdgeM n st q jid s
            | none =>
              let (st, mid) := allocMono st jid s
              let st := updM st mid (fun mm => { mm with prevM := some tail })
              let st := updM st tail (fun mm => { mm with nextM := some mid })
              let st := updP st pid (fun p => { p with tailM := some mid })
              (st, pid)

/-- `new_poly` (SkGr.cpp:1309): prepend to the global poly list. -/
def newPolyM (st : St) (ph : Option ℕ) (vid : ℕ) (w : ℤ) : St × Option ℕ × ℕ :=
  let (st, pid) := allocP st { firstVertex := vid, winding := w, nextP := ph }
  (st, some pid, pid)

/-- The pairwise walk over `v`'s edges-above in `tessellate`
(SkGr.cpp:2067-2077). -/
def tessAbovePairs (st : St) (el : EL) (la : ℕ) : ℕ → ℕ → St × EL
  | 0, _ => (st, el)
  | n + 1, eid =>
    if eid = la then (st, el)
    else
      match (getE st eid).nextAbove with
      | none => (st, el)
      | some rightEdge =>
        let (st, el) := elRemove st el eid
        let st :=
          match (getE st eid).rightPoly with
          | some rp => (polyAddEdgeM 2 st rp eid .kLeft).1
          | none => st
        let st :=
          match (getE st rightEdge).leftPoly with
          | some lp =>
            if some lp ≠ (getE st eid).rightPoly then
              (polyAddEdgeM 2 st lp eid .kRight).1
            else st
          | none => st
        tessAbovePairs st el la n rightEdge

/-- The loop over `v`'s edges-below in `tessellate` (SkGr.cpp:2109-2119). -/
def tessBelowLoop (st : St) (el : EL) (ph : Option ℕ) (vid : ℕ) :
    ℕ → ℕ → Option ℕ → St × EL × Option ℕ
  | 0, _, _ => (st, el, ph)
  | n + 1, leftEdge, cur =>
    match cur with
    | none => (st, el, ph)
    | some rightEdge =>
      let (st, el) := insertEdgeAEL st el rightEdge (some leftEdge)
      let winding :=
        (match (getE st leftEdge).leftPoly with
         | some lp => (getP st lp).winding
         | none => 0) + (getE st leftEdge).winding
      let stph :=
        if winding ≠ 0 then
          let (st, ph, pid) := newPolyM st ph vid winding
          let st := updE st leftEdge (fun e => { e with rightPoly := some pid })
          let st := updE st rightEdge (fun e => { e with leftPoly := some pid })
          (st, ph)
        else (st, ph)
      tessBelowLoop stph.1 el stph.2 vid n rightEdge ((getE stph.1 rightEdge).nextBelow)

/-- One vertex step of `tessellate` (SkGr.cpp:2029-2129). -/
def tessVertex (st : St) (d : Direction) (el : EL) (ph : Option ℕ) (vid : ℕ) :
    St × EL × Option ℕ :=
  let encl := findEnclosing st el vid
  let le := encl.1
  let re := encl.2
  let leftPoly0 : Option ℕ :=
    match (getV st vid).firstAbove with
    | some fa => (getE st fa).leftPoly
    | none =>
      match le with
      | some l => (getE st l).rightPoly
      | none => none
  let rightPoly0 : Option ℕ :=
    match (getV st vid).lastAbove with
    | some la =>
      match (getV st vid).firstAbove with
      | some _ => (getE st la).rightPoly
      | none =>
        match re with
        | some r => (getE st r).leftPoly
        | none => none
    | none =>
      match re with
      | some r => (getE st r).leftPoly
      | none => none
  -- edges above: bind them into polys, remove from AEL, set partners
  let stage1 : St × EL × Option ℕ × Option ℕ :=
    match (getV st vid).firstAbove, (getV st vid).lastAbove with
    | some fa, some la =>
      let stLP :=
        match leftPoly0 with
        | some lp => polyAddEdgeM 2 st lp fa .kRight
        | none => (st, 0)
      let st := match leftPoly0 with
        | some _ => stLP.1
        | none => st
      let leftPoly1 : Option ℕ := match leftPoly0 with
        | some _ => some stLP.2
        | none => none
      let stRP :=
        match rightPoly0 with
        | some rp => polyAddEdgeM 2 st rp la .kLeft
        | none => (st, 0)
      let st := match rightPoly0 with
        | some _ => stRP.1
        | none => st
      let rightPoly1 : Option ℕ := match rightPoly0 with
        | some _ => some stRP.2
        | none => none
      let (st, el) := tessAbovePairs st el la (st.en + 1) fa
      let (st, el) := elRemove st el la
      let st :=
        if (getV st vid).firstBelow = none then
          match leftPoly1, rightPoly1 with
          | some lp, some rp =>
            if lp ≠ rp then
              let st := updP st rp (fun p => { p with partner := some lp })
              updP st lp (fun p => { p with partner := some rp })
            else st
          | _, _ => st
        else st
      (st, el, leftPoly1, rightPoly1)
    | _, _ => (st, el, leftPoly0, rightPoly0)
  let st := stage1.1
  let el := stage1.2.1
  let leftPoly := stage1.2.2.1
  let rightPoly := stage1.2.2.2
  -- edges below
  match (getV st vid).firstBelow, (getV st vid).lastBelow with
  | some fb, some lb =>
    let stage2 : St × Option ℕ × Option ℕ × Option ℕ :=
      if (getV st vid).firstAbove = none then
        match leftPoly, rightPoly with
        | some lp0, some rp0 =>
          let stlr : St × ℕ × ℕ × Option ℕ :=
            if lp0 = rp0 then
              match (getP st lp0).tailM with
              | some t =>
                if (getM st t).side = .kLeft then
                  let (st, ph, np) := newPolyM st ph (lastVertexM st lp0)
                    (getP st lp0).winding
                  let st := match le with
                    | some l => updE st l (fun e => { e with rightPoly := some np })
                    | none => st
                  (st, np, rp0, ph)
                else
                  let (st, ph, np) := newPolyM st ph (lastVertexM st rp0)
                    (getP st rp0).winding
                  let st := match re with
                    | some r => updE st r (fun e => { e with leftPoly := some np })
                    | none => st
                  (st, lp0, np, ph)
              | none =>
                let (st, ph, np) := newPolyM st ph (lastVertexM st rp0)
                  (getP st rp0).winding
                let st := match re with
                  | some r => updE st r (fun e => { e with leftPoly := some np })
                  | none => st
                (st, lp0, np, ph)
            else (st, lp0, rp0, ph)
          let st := stlr.1
          let lp := stlr.2.1
          let rp := stlr.2.2.1
          let ph := stlr.2.2.2
          let (st, jid) := allocE st
            { winding := 1, top := lastVertexM st lp, bot := vid, etype := .kInner,
              line := lineOf (getV st (lastVertexM st lp)).pt (getV st vid).pt }
          let (st, lp') := polyAddEdgeM 2 st lp jid .kRight
          let (st, rp') := polyAddEdgeM 2 st rp jid .kLeft
          (st, some lp', some rp', ph)
        | _, _ => (st, leftPoly, rightPoly, ph)
      else (st, leftPoly, rightPoly, ph)
    let st := stage2.1
    let leftPoly := stage2.2.1
    let rightPoly := stage2.2.2.1
    let ph := stage2.2.2.2
    let st := updE st fb (fun e => { e with leftPoly := leftPoly })
    let (st, el) := insertEdgeAEL st el fb le
    let (st, el, ph) := tessBelowLoop st el ph vid (st.en + 1) fb ((getE st fb).nextBelow)
    let st := updE st lb (fun e => { e with rightPoly := rightPoly })
    (st, el, ph)
  | _, _ => (st, el, ph)

/-- `tessellate` (SkGr.cpp:2025): the vertex sweep loop. -/
def tessLoop (d : Direction) : ℕ → St → EL → Option ℕ → Option ℕ → St × Option ℕ
  | 0, st, _, ph, _ => (st, ph)
  | n + 1, st, el, ph, cur =>
    match cur with
    | none => (st, ph)
    | some vid =>
      if (getV st vid).firstAbove = none ∧ (getV st vid).firstBelow = none then
        tessLoop d n st el ph ((getV st vid).next)
      else
        let (st, el, ph) := tessVertex st d el ph vid
        tessLoop d n st el ph ((getV st vid).next)

def tessellateM (st : St) (d : Direction) (vl : VL) : St × Option ℕ :=
  tessLoop d (st.vn + 1) st ⟨none, none⟩ none vl.hd

/-! ### Extraction of the poly list for stage 6 (pointer dereferencing) -/

def extractMonoEdges (st : St) (s : Side) : ℕ → Option ℕ → List PolyEdge
  | 0, _ => []
  | _ + 1, none => []
  | n + 1, some eid =>
    let e := getE st eid
    ⟨e.top, (getV st e.top).pt, e.bot, (getV st e.bot).pt,
     e.usedInLeft, e.usedInRight⟩ ::
      extractMonoEdges st s n
        (match s with
         | .kRight => e.rightPolyNext
         | .kLeft => e.leftPolyNext)

def extractMonos (st : St) : ℕ → Option ℕ → List MonoPoly
  | 0, _ => []
  | _ + 1, none => []
  | n + 1, some mid =>
    let m := getM st mid
    ⟨m.side, extractMonoEdges st m.side (st.en + 1) m.firstEdge⟩ ::
      extractMonos st n m.nextM

def extractPoly (st : St) (pid : ℕ) : PolyRec :=
  let p := getP st pid
  ⟨p.firstVertex, p.winding, extractMonos st (st.mn + 1) p.headM, p.count,
   p.partner.isSome⟩

def extractPolys (st : St) : ℕ → Option ℕ → List PolyRec
  | 0, _ => []
  | _ + 1, none => []
  | n + 1, some pid =>
    extractPoly st pid :: extractPolys st n (getP st pid).nextP

/-! ### Top-level drivers -/

/-- `SkRect::toQuad` order for the clip bounds, reversed as in
`path_to_contours` for inverse fill types (SkGr.cpp:1400-1410). -/
def inverseContour (clip : List Pt) : List Pt := clip.reverse

/-- The bounding box of the path's points (`SkPath::getBounds`), reduced to
the width/height read by `contours_to_polys`. -/
def boundsOfPts (pts : List Pt) : RectWH :=
  match pts with
  | [] => ⟨0, 0⟩
  | p :: rest =>
    let xs := (p :: rest).map (fun q => q.x)
    let ys := (p :: rest).map (fun q => q.y)
    ⟨xs.foldr max p.x - xs.foldr min p.x, ys.foldr max p.y - ys.foldr min p.y⟩

def pointsOfVerbs (verbs : List PVerb) : List Pt :=
  verbs.foldr
    (fun vb acc =>
      match vb with
      | .move p => p :: acc
      | .line p => p :: acc
      | .close => acc)
    []

/-- `contours_to_polys` (SkGr.cpp:2378) without antialiasing: choose the
comparator from the bounds, build the mesh, sort and simplify, tessellate. -/
def contoursToPolysM (contourPts : List (List Pt)) (pathBounds : RectWH) :
    St × Option ℕ :=
  let d := chooseDirection pathBounds
  let sanitized := (contourPts.map sanitizeContourM).filter (fun l => l ≠ [])
  let stc := sanitized.foldl
    (fun (acc : St × List (List ℕ)) pts =>
      let (st, ids) := loadContour acc.1 pts
      (st, acc.2 ++ [ids]))
    (({} : St), [])
  let (st, vl) := buildEdgesM stc.1 d stc.2
  let (st, vl) := sortAndSimplifyM st d vl
  let (st, ph) := tessellateM st d vl
  (st, ph)

/-- `path_to_polys` (SkGr.cpp:2407) for a line-segment path without
antialiasing, returning the extracted poly list in traversal order. -/
def pathToPolysM (verbs : List PVerb) (inverseFill : Bool) (clip : List Pt) :
    List PolyRec :=
  let contours := pathToContoursM verbs []
  let contours := if inverseFill then inverseContour clip :: contours else contours
  let (st, ph) := contoursToPolysM contours (boundsOfPts (pointsOfVerbs verbs))
  extractPolys st (st.pn + 1) ph

/-- End-to-end triangle vertices for a line-segment path, non-antialiased:
`path_to_polys` followed by `polys_to_triangles` (the body of
`PathToTriangles` after its guards). -/
def trianglesOfPathM (verbs : List PVerb) (ft : FillType) : List Pt :=
  polys_to_triangles (pathToPolysM verbs false []) ft

end SkiaTess
